import Mathlib

/-!
# Workshop service: handlers and request metrics

A shallow embedding of `workshop-service/workshop.go` and `workshop-service/metrics.go`.

* A Go `string` or `[]byte` is its sequence of bytes, a `List Nat` of numbers below 256;
  the texts the code compares or writes are given as `bytes "..."`, their UTF-8
  encoding. Request methods, header keys and values and metric label values are ASCII
  texts and stay `String`.
* Go `int` is `Int`; the 64-bit range is enforced where the code parses numbers.
* The package-level variable `workshop` and the Prometheus collectors are threaded
  through the handlers as explicit state.
* A call that can panic ends in an `Outcome`: it returned, or it panicked, each with the
  state it left behind.
* The standard-library pieces the handlers call (`unicode/utf8`, `strconv.Atoi`,
  `encoding/json`, `net/http`, `httptest.ResponseRecorder`, the Prometheus collectors)
  are modelled from their documented behaviour in the namespaces `utf8`, `strconv`,
  `json`, `http`, `httptest` and `prometheus`.
-/

set_option autoImplicit false

/-! ## unicode/utf8 -/

namespace utf8

/-- The rune U+FFFD that stands for an encoding error. -/
def RuneError : Nat := 0xFFFD

/-- Model of `utf8.DecodeRune`: the first rune of the bytes and its width. An invalid
or incomplete encoding gives `(RuneError, 1)`, no bytes at all `(RuneError, 0)`. The
payload bits of a byte are written as a difference, which is what the masks leave in the
ranges checked. -/
def DecodeRune : List Nat → Nat × Nat
  | [] => (RuneError, 0)
  | p0 :: rest =>
    if p0 < 0x80 then (p0, 1)
    else if p0 < 0xC2 then (RuneError, 1)
    else if p0 ≤ 0xDF then
      match rest with
      | b1 :: _ =>
        if 0x80 ≤ b1 ∧ b1 ≤ 0xBF then ((p0 - 0xC0) * 64 + (b1 - 0x80), 2)
        else (RuneError, 1)
      | [] => (RuneError, 1)
    else if p0 ≤ 0xEF then
      match rest with
      | b1 :: b2 :: _ =>
        if (if p0 = 0xE0 then 0xA0 else 0x80) ≤ b1 ∧ b1 ≤ (if p0 = 0xED then 0x9F else 0xBF) ∧
            0x80 ≤ b2 ∧ b2 ≤ 0xBF then
          ((p0 - 0xE0) * 4096 + (b1 - 0x80) * 64 + (b2 - 0x80), 3)
        else (RuneError, 1)
      | _ => (RuneError, 1)
    else if p0 ≤ 0xF4 then
      match rest with
      | b1 :: b2 :: b3 :: _ =>
        if (if p0 = 0xF0 then 0x90 else 0x80) ≤ b1 ∧ b1 ≤ (if p0 = 0xF4 then 0x8F else 0xBF) ∧
            0x80 ≤ b2 ∧ b2 ≤ 0xBF ∧ 0x80 ≤ b3 ∧ b3 ≤ 0xBF then
          ((p0 - 0xF0) * 262144 + (b1 - 0x80) * 4096 + (b2 - 0x80) * 64 + (b3 - 0x80), 4)
        else (RuneError, 1)
      | _ => (RuneError, 1)
    else (RuneError, 1)

/-- Model of `utf8.EncodeRune`: the UTF-8 encoding of a rune; a surrogate or a value
above U+10FFFF is encoded as `RuneError`. -/
def EncodeRune (r : Nat) : List Nat :=
  if r < 0x80 then [r]
  else if r < 0x800 then [0xC0 + r / 64, 0x80 + r % 64]
  else if (0xD800 ≤ r ∧ r < 0xE000) ∨ 0x10FFFF < r then [0xEF, 0xBF, 0xBD]
  else if r < 0x10000 then [0xE0 + r / 4096, 0x80 + r / 64 % 64, 0x80 + r % 64]
  else [0xF0 + r / 262144, 0x80 + r / 4096 % 64, 0x80 + r / 64 % 64, 0x80 + r % 64]

/-- The UTF-8 encoding of a sequence of runes. -/
def encode : List Nat → List Nat
  | [] => []
  | r :: rs => EncodeRune r ++ encode rs

/-- Validity from a position inside the bytes; the first argument counts bytes still to
be passed because they belong to a rune already checked. -/
def validFrom : Nat → List Nat → Bool
  | _, [] => true
  | skip + 1, _ :: rest => validFrom skip rest
  | 0, b :: rest =>
    if b < 0x80 then validFrom 0 rest
    else if (DecodeRune (b :: rest)).2 = 1 then false
    else validFrom ((DecodeRune (b :: rest)).2 - 1) rest

/-- Model of `utf8.Valid`: the bytes are made of valid UTF-8 encodings only. -/
def Valid (s : List Nat) : Bool := validFrom 0 s

end utf8

/-- The bytes of a text: its UTF-8 encoding. -/
def bytes (s : String) : List Nat := utf8.encode (s.data.map Char.toNat)

/-! ## strconv -/

namespace strconv

/-- ASCII decimal digit test. -/
def isDigit (c : Nat) : Bool := decide (48 ≤ c) && decide (c ≤ 57)

/-- Value of a digit string read left to right in base 10, starting from `acc`. -/
def digitsValue : List Nat → Nat → Nat
  | [], acc => acc
  | c :: cs, acc => digitsValue cs (acc * 10 + (c - 48))

/-- Model of `strconv.ParseInt(s, 10, 64)`: an optional sign (`-` is 45, `+` is 43), then
one or more decimal digits and nothing else; `none` stands for a non-nil error (syntax
or range). -/
def ParseInt (s : List Nat) : Option Int :=
  match s with
  | [] => none
  | c :: cs =>
    let ds := if c = 45 ∨ c = 43 then cs else c :: cs
    if ds = [] then none
    else if ds.all isDigit then
      let n : Int := (digitsValue ds 0 : Nat)
      let v := if c = 45 then -n else n
      if -(2 : Int) ^ 63 ≤ v ∧ v ≤ (2 : Int) ^ 63 - 1 then some v else none
    else none

/-- Model of `strconv.Atoi`: base-10 `ParseInt` at the width of `int` (64 bits). -/
def Atoi (s : List Nat) : Option Int := ParseInt s

/-- Model of `strconv.FormatInt(n, 10)`. -/
def FormatInt (n : Int) : List Nat :=
  if n < 0 then 45 :: (Nat.toDigits 10 n.natAbs).map Char.toNat
  else (Nat.toDigits 10 n.natAbs).map Char.toNat

end strconv

/-! ## The record served by the handlers (workshop.go, lines 11-17) -/

/-- The `Workshop` struct. A `string` field holds any bytes; `Participants` is a Go
slice: `none` is the nil slice. -/
structure Workshop where
  Name : List Nat
  Date : List Nat
  Presentator : List Nat
  SweaterScore : Int
  Participants : Option (List (List Nat))
  deriving DecidableEq, Repr

/-! ## encoding/json -/

namespace json

/-- A parsed JSON value; a number keeps its literal text, a string its decoded bytes. -/
inductive Value where
  | null
  | bool (b : Bool)
  | number (lit : List Nat)
  | string (s : List Nat)
  | array (elems : List Value)
  | object (members : List (List Nat × Value))

/-- The double quote. -/
def quote : Nat := 34

/-- The backslash. -/
def backslash : Nat := 92

/-- The opening brace. -/
def lbrace : Nat := 123

/-- The closing brace. -/
def rbrace : Nat := 125

/-- The opening square bracket. -/
def lbracket : Nat := 91

/-- The closing square bracket. -/
def rbracket : Nat := 93

/-- The comma. -/
def comma : Nat := 44

/-- The colon. -/
def colon : Nat := 58

/-- The deepest nesting of arrays and objects the scanner accepts. -/
def maxNestingDepth : Nat := 10000

/-- JSON whitespace: space, tab, carriage return, line feed. -/
def isSpace (c : Nat) : Bool :=
  decide (c = 32) || decide (c = 9) || decide (c = 13) || decide (c = 10)

/-- Drop leading JSON whitespace. -/
def skipSpace : List Nat → List Nat
  | [] => []
  | c :: cs => if isSpace c then skipSpace cs else c :: cs

/-- Value of one hexadecimal digit (`0`-`9`, `a`-`f`, `A`-`F`). -/
def hexVal (c : Nat) : Option Nat :=
  if 48 ≤ c ∧ c ≤ 57 then some (c - 48)
  else if 97 ≤ c ∧ c ≤ 102 then some (c - 87)
  else if 65 ≤ c ∧ c ≤ 70 then some (c - 55)
  else none

/-- The number written by the first four bytes as hexadecimal digits (`getu4`). -/
def getu4 (cs : List Nat) : Option Nat :=
  match cs with
  | a :: b :: c :: d :: _ =>
    match hexVal a, hexVal b, hexVal c, hexVal d with
    | some x, some y, some z, some w => some (x * 4096 + y * 256 + z * 16 + w)
    | _, _, _, _ => none
  | _ => none

/-- The byte denoted by a one-letter escape: quote, backslash, slash, `b`, `f`, `n`,
`r`, `t`. -/
def unescape (e : Nat) : Option Nat :=
  if e = quote then some quote
  else if e = backslash then some backslash
  else if e = 47 then some 47
  else if e = 98 then some 8
  else if e = 102 then some 12
  else if e = 110 then some 10
  else if e = 114 then some 13
  else if e = 116 then some 9
  else none

/-- The escape that starts right after a backslash: the rune it denotes and the number
of input bytes it spans. A `\u` escape (`u` is 117) in the surrogate range is combined
with a following low surrogate escape, and is U+FFFD when it has no such partner. -/
def escapeAt (cs : List Nat) : Option (Nat × Nat) :=
  match cs with
  | [] => none
  | e :: rest =>
    if e = 117 then
      match getu4 rest with
      | none => none
      | some r =>
        if 0xD800 ≤ r ∧ r < 0xE000 then
          match rest.drop 4 with
          | b :: u :: rest2 =>
            if r < 0xDC00 ∧ b = backslash ∧ u = 117 then
              match getu4 rest2 with
              | some r1 =>
                if 0xDC00 ≤ r1 ∧ r1 < 0xE000 then
                  some (0x10000 + (r - 0xD800) * 1024 + (r1 - 0xDC00), 11)
                else some (utf8.RuneError, 5)
              | none => some (utf8.RuneError, 5)
            else some (utf8.RuneError, 5)
          | _ => some (utf8.RuneError, 5)
        else some (r, 5)
    else
      match unescape e with
      | some ch => some (ch, 1)
      | none => none

/-- Put decoded bytes in front of the rest of a decoded string. -/
def push (bs : List Nat) : Option (List Nat × List Nat) → Option (List Nat × List Nat)
  | some (s, rest) => some (bs ++ s, rest)
  | none => none

/-- Read a string literal whose opening quote has been consumed: the decoded bytes and
the input after the closing quote. A byte below 0x20 is an error, an escape is replaced
by the encoding of its rune, an ASCII byte is kept, and any other byte starts a rune
that is decoded and encoded again, so an invalid byte becomes U+FFFD. The first argument
counts bytes still to be passed because they belong to an escape or a rune already
decoded. -/
def scanString : Nat → List Nat → Option (List Nat × List Nat)
  | _, [] => none
  | skip + 1, _ :: cs => scanString skip cs
  | 0, c :: cs =>
    if c = quote then some ([], cs)
    else if c = backslash then
      match escapeAt cs with
      | some (r, n) => push (utf8.EncodeRune r) (scanString n cs)
      | none => none
    else if c < 32 then none
    else if c < 0x80 then push [c] (scanString 0 cs)
    else
      push (utf8.EncodeRune (utf8.DecodeRune (c :: cs)).1)
        (scanString ((utf8.DecodeRune (c :: cs)).2 - 1) cs)

/-- Split off the longest run of decimal digits. -/
def takeDigits : List Nat → List Nat × List Nat
  | [] => ([], [])
  | c :: cs =>
    if strconv.isDigit c then (c :: (takeDigits cs).1, (takeDigits cs).2) else ([], c :: cs)

/-- Integer part of a number: a single `0` (48), or a digit run starting with `1`-`9`. -/
def scanInt (cs : List Nat) : Option (List Nat × List Nat) :=
  match cs with
  | [] => none
  | c :: rest =>
    if c = 48 then some ([c], rest)
    else if strconv.isDigit c then some (takeDigits (c :: rest))
    else none

/-- Optional fraction: a dot (46) followed by at least one digit. -/
def scanFrac (cs : List Nat) : Option (List Nat × List Nat) :=
  match cs with
  | [] => some ([], [])
  | c :: rest =>
    if c = 46 then
      match takeDigits rest with
      | ([], _) => none
      | (d :: ds, r) => some (c :: d :: ds, r)
    else some ([], c :: rest)

/-- Optional exponent: `e` (101) or `E` (69), an optional sign, at least one digit. -/
def scanExp (cs : List Nat) : Option (List Nat × List Nat) :=
  match cs with
  | [] => some ([], [])
  | c :: rest =>
    if c = 101 ∨ c = 69 then
      match rest with
      | [] => none
      | s :: rest1 =>
        if s = 43 ∨ s = 45 then
          match takeDigits rest1 with
          | ([], _) => none
          | (d :: ds, r) => some (c :: s :: d :: ds, r)
        else
          match takeDigits (s :: rest1) with
          | ([], _) => none
          | (d :: ds, r) => some (c :: d :: ds, r)
    else some ([], c :: rest)

/-- Read a number literal: its text and the input after it. -/
def scanNumber (cs : List Nat) : Option (List Nat × List Nat) :=
  let sign : List Nat × List Nat :=
    match cs with
    | [] => ([], [])
    | c :: rest => if c = 45 then ([c], rest) else ([], c :: rest)
  match scanInt sign.2 with
  | none => none
  | some (i, r1) =>
    match scanFrac r1 with
    | none => none
    | some (f, r2) =>
      match scanExp r2 with
      | none => none
      | some (e, r3) => some (sign.1 ++ i ++ f ++ e, r3)

/-- Consume the given bytes from the front of the input. -/
def expect : List Nat → List Nat → Option (List Nat)
  | [], cs => some cs
  | _ :: _, [] => none
  | p :: ps, c :: cs => if p = c then expect ps cs else none

mutual
/-- Read the next JSON value and return it with the unread input. `depth` is the number
of arrays and objects open around the value; opening one more than `maxNestingDepth` is
an error. The first argument bounds the number of nested calls; the input length plus
one is always enough. -/
def parseValue : Nat → Nat → List Nat → Option (Value × List Nat)
  | 0, _, _ => none
  | fuel + 1, depth, cs =>
    match skipSpace cs with
    | [] => none
    | c :: rest =>
      if c = lbrace then
        if maxNestingDepth < depth + 1 then none
        else
          match skipSpace rest with
          | [] => none
          | d :: rest1 =>
            if d = rbrace then some (Value.object [], rest1)
            else
              match parseMembers fuel (depth + 1) (d :: rest1) with
              | some (ms, r) => some (Value.object ms, r)
              | none => none
      else if c = lbracket then
        if maxNestingDepth < depth + 1 then none
        else
          match skipSpace rest with
          | [] => none
          | d :: rest1 =>
            if d = rbracket then some (Value.array [], rest1)
            else
              match parseElements fuel (depth + 1) (d :: rest1) with
              | some (es, r) => some (Value.array es, r)
              | none => none
      else if c = quote then
        match scanString 0 rest with
        | some (s, r) => some (Value.string s, r)
        | none => none
      else if c = 45 ∨ strconv.isDigit c = true then
        match scanNumber (c :: rest) with
        | some (lit, r) => some (Value.number lit, r)
        | none => none
      else if c = 116 then
        match expect (bytes "rue") rest with
        | some r => some (Value.bool true, r)
        | none => none
      else if c = 102 then
        match expect (bytes "alse") rest with
        | some r => some (Value.bool false, r)
        | none => none
      else if c = 110 then
        match expect (bytes "ull") rest with
        | some r => some (Value.null, r)
        | none => none
      else none
/-- Read the elements of a non-empty array up to and including the closing bracket. -/
def parseElements : Nat → Nat → List Nat → Option (List Value × List Nat)
  | 0, _, _ => none
  | fuel + 1, depth, cs =>
    match parseValue fuel depth cs with
    | none => none
    | some (v, r) =>
      match skipSpace r with
      | [] => none
      | c :: rest =>
        if c = comma then
          match parseElements fuel depth rest with
          | some (vs, r1) => some (v :: vs, r1)
          | none => none
        else if c = rbracket then some ([v], rest)
        else none
/-- Read the members of a non-empty object up to and including the closing brace. -/
def parseMembers : Nat → Nat → List Nat → Option (List (List Nat × Value) × List Nat)
  | 0, _, _ => none
  | fuel + 1, depth, cs =>
    match skipSpace cs with
    | [] => none
    | q :: r0 =>
      if q = quote then
        match scanString 0 r0 with
        | none => none
        | some (k, r1) =>
          match skipSpace r1 with
          | [] => none
          | c :: r2 =>
            if c = colon then
              match parseValue fuel depth r2 with
              | none => none
              | some (v, r3) =>
                match skipSpace r3 with
                | [] => none
                | d :: r4 =>
                  if d = comma then
                    match parseMembers fuel depth r4 with
                    | some (ms, r5) => some ((k, v) :: ms, r5)
                    | none => none
                  else if d = rbrace then some ([(k, v)], r4)
                  else none
            else none
      else none
end

/-- Lower-case hexadecimal digit. -/
def hexDigit (n : Nat) : Nat := if n < 10 then 48 + n else 87 + n

/-- Text written for one ASCII byte of a string (HTML escaping on, as `Marshal` and a
fresh `Encoder` have it): quote and backslash after a backslash, the short escapes
`\b \f \n \r \t`, `\u00XX` for the other control bytes and for `<`, `>`, `&`. -/
def escapeByte (c : Nat) : List Nat :=
  if c = quote ∨ c = backslash then [backslash, c]
  else if c = 8 then [backslash, 98]
  else if c = 12 then [backslash, 102]
  else if c = 10 then [backslash, 110]
  else if c = 13 then [backslash, 114]
  else if c = 9 then [backslash, 116]
  else if c < 32 ∨ c = 60 ∨ c = 62 ∨ c = 38 then
    [backslash, 117, 48, 48, hexDigit (c / 16), hexDigit (c % 16)]
  else [c]

/-- Escaped text of a string, without the surrounding quotes. An ASCII byte goes
through `escapeByte`; any other byte starts a rune: an invalid one is written as the
six bytes of the escape of U+FFFD, the runes U+2028 and U+2029 as their `u` escapes,
and the bytes of any other rune are copied. The first argument counts bytes of the
current rune still to be passed, the second says whether they are copied. -/
def escape : Nat → Bool → List Nat → List Nat
  | _, _, [] => []
  | skip + 1, true, b :: rest => b :: escape skip true rest
  | skip + 1, false, _ :: rest => escape skip false rest
  | 0, _, b :: rest =>
    if b < 0x80 then escapeByte b ++ escape 0 true rest
    else if (utf8.DecodeRune (b :: rest)).1 = utf8.RuneError ∧
        (utf8.DecodeRune (b :: rest)).2 = 1 then
      [backslash, 117, 102, 102, 102, 100] ++ escape 0 true rest
    else if (utf8.DecodeRune (b :: rest)).1 = 0x2028 ∨
        (utf8.DecodeRune (b :: rest)).1 = 0x2029 then
      [backslash, 117, 50, 48, 50, hexDigit ((utf8.DecodeRune (b :: rest)).1 % 16)] ++
        escape ((utf8.DecodeRune (b :: rest)).2 - 1) false rest
    else b :: escape ((utf8.DecodeRune (b :: rest)).2 - 1) true rest

/-- A string as a JSON string literal. -/
def encodeString (s : List Nat) : List Nat := quote :: (escape 0 true s ++ [quote])

/-- The second and later elements of an array, each after its comma. -/
def encodeTail : List (List Nat) → List Nat
  | [] => []
  | s :: t => comma :: (encodeString s ++ encodeTail t)

/-- A `[]string`: `null` for the nil slice, otherwise an array of string literals. -/
def encodeSlice : Option (List (List Nat)) → List Nat
  | none => bytes "null"
  | some [] => [lbracket, rbracket]
  | some (s :: t) => lbracket :: (encodeString s ++ encodeTail t ++ [rbracket])

/-- An object key with its colon. -/
def encodeKey (k : String) : List Nat := quote :: (bytes k ++ [quote, colon])

/-- The JSON text of a `Workshop`, fields in declaration order under their json tags. -/
def marshal (v : Workshop) : List Nat :=
  lbrace :: (encodeKey "name" ++ encodeString v.Name ++ comma ::
    (encodeKey "date" ++ encodeString v.Date ++ comma ::
    (encodeKey "presentator" ++ encodeString v.Presentator ++ comma ::
    (encodeKey "sweaterScore" ++ strconv.FormatInt v.SweaterScore ++ comma ::
    (encodeKey "participants" ++ encodeSlice v.Participants ++ [rbrace])))))

/-- Model of `json.Marshal` on a `Workshop`. -/
def Marshal (v : Workshop) : List Nat := marshal v

/-- Case folding of a key: ASCII letters go to upper case, and the two runes whose fold
orbit holds an ASCII letter, U+017F and U+212A, go to `S` (83) and `K` (75). Any other
rune folds to a rune outside ASCII, which no json tag of `Workshop` contains; its bytes
are kept. The first argument counts bytes of the current rune still to be passed, the
second says whether they are kept. -/
def foldName : Nat → Bool → List Nat → List Nat
  | _, _, [] => []
  | skip + 1, true, b :: rest => b :: foldName skip true rest
  | skip + 1, false, _ :: rest => foldName skip false rest
  | 0, _, b :: rest =>
    if b < 0x80 then
      (if 97 ≤ b ∧ b ≤ 122 then b - 32 else b) :: foldName 0 true rest
    else if (utf8.DecodeRune (b :: rest)).1 = 0x17F then
      83 :: foldName ((utf8.DecodeRune (b :: rest)).2 - 1) false rest
    else if (utf8.DecodeRune (b :: rest)).1 = 0x212A then
      75 :: foldName ((utf8.DecodeRune (b :: rest)).2 - 1) false rest
    else b :: foldName ((utf8.DecodeRune (b :: rest)).2 - 1) true rest

/-- Whether an object key selects the struct field with the given json tag: an exact
or a case-insensitive match. -/
def sameField (key : List Nat) (tag : String) : Bool :=
  decide (foldName 0 true key = foldName 0 true (bytes tag))

/-- Store a JSON value into a `string`: `null` keeps the old value, anything but a
string literal is a type error. -/
def storeString (old : List Nat) : Value → Option (List Nat)
  | Value.null => some old
  | Value.string s => some s
  | _ => none

/-- Store a JSON value into an `int`: `null` keeps the old value, a number must read
as a 64-bit decimal integer, anything else is a type error. -/
def storeInt (old : Int) : Value → Option Int
  | Value.null => some old
  | Value.number lit => strconv.ParseInt lit
  | _ => none

/-- Store array elements into the elements of a `[]string`, position by position.
`backing` is what the backing array of the slice holds from index 0 on: the elements of
the slice, then what an earlier, longer value of the slice left behind. An element past
the end of `backing` starts from the empty string. -/
def storeStrings : List Value → List (List Nat) → Option (List (List Nat))
  | [], _ => some []
  | v :: vs, backing =>
    match storeString (backing.headD []) v, storeStrings vs backing.tail with
    | some s, some ss => some (s :: ss)
    | _, _ => none

/-- Store a JSON value into a `[]string`. `spare` is what the backing array holds past
the length of the slice; the result is the new slice with its new spare part. `null`
sets the slice to nil; an empty array gives a fresh empty slice; any other array is
decoded over the backing array, element by element, and what it does not reach stays
behind it. -/
def storeSlice (old : Option (List (List Nat))) (spare : List (List Nat)) :
    Value → Option (Option (List (List Nat)) × List (List Nat))
  | Value.null => some (none, [])
  | Value.array [] => some (some [], [])
  | Value.array (e :: es) =>
    match storeStrings (e :: es) (old.getD [] ++ spare) with
    | some ss => some (some ss, (old.getD [] ++ spare).drop (e :: es).length)
    | none => none
  | _ => none

/-- Store one object member into the field it names; unknown keys are ignored. The
second component is the spare part of the backing array of `Participants`. -/
def setField (w : Workshop × List (List Nat)) (key : List Nat) (v : Value) :
    Option (Workshop × List (List Nat)) :=
  if sameField key "name" then
    match storeString w.1.Name v with
    | some s => some ({ w.1 with Name := s }, w.2)
    | none => none
  else if sameField key "date" then
    match storeString w.1.Date v with
    | some s => some ({ w.1 with Date := s }, w.2)
    | none => none
  else if sameField key "presentator" then
    match storeString w.1.Presentator v with
    | some s => some ({ w.1 with Presentator := s }, w.2)
    | none => none
  else if sameField key "sweaterScore" then
    match storeInt w.1.SweaterScore v with
    | some n => some ({ w.1 with SweaterScore := n }, w.2)
    | none => none
  else if sameField key "participants" then
    match storeSlice w.1.Participants w.2 v with
    | some ps => some ({ w.1 with Participants := ps.1 }, ps.2)
    | none => none
  else some w

/-- Store the members of an object in input order. -/
def setFields : List (List Nat × Value) → Workshop × List (List Nat) →
    Option (Workshop × List (List Nat))
  | [], w => some w
  | (k, v) :: ms, w =>
    match setField w k v with
    | some w1 => setFields ms w1
    | none => none

/-- Store a JSON value into a `Workshop`: `null` leaves it alone, an object fills the
fields, any other value is a type error. The slice of `into` is taken to fill its
backing array, as the nil slice of the zero value does. -/
def unmarshal (into : Workshop) : Value → Option Workshop
  | Value.null => some into
  | Value.object ms =>
    match setFields ms (into, []) with
    | some w => some w.1
    | none => none
  | _ => none

/-- The ways `Decode` fails: no value in the input, a value that is not well-formed, a
well-formed value that does not fit the target type. -/
inductive DecodeError where
  | eof
  | malformed
  | mismatch
  deriving DecidableEq, Repr

/-- Model of `json.NewDecoder(body).Decode(&into)`: reads the next JSON value of the
stream and stores it; input after that value stays unread. -/
def Decode (body : List Nat) (into : Workshop) : Except DecodeError Workshop :=
  match skipSpace body with
  | [] => Except.error DecodeError.eof
  | c :: cs =>
    match parseValue (body.length + 1) 0 (c :: cs) with
    | none => Except.error DecodeError.malformed
    | some (v, _) =>
      match unmarshal into v with
      | none => Except.error DecodeError.mismatch
      | some w => Except.ok w

/-- Model of `json.Valid`: the bytes are one JSON value with nothing but whitespace
around it. -/
def Valid (data : List Nat) : Bool :=
  match parseValue (data.length + 1) 0 data with
  | some (_, rest) => decide (skipSpace rest = [])
  | none => false

end json

/-! ## Calls that can panic -/

/-- How a call ended: it returned, or it panicked; either way with the state it left. -/
inductive Outcome (α : Type) where
  | returned (a : α)
  | panicked (a : α)
  deriving DecidableEq, Repr

/-- The state a call left behind. -/
def Outcome.state {α : Type} : Outcome α → α
  | Outcome.returned a => a
  | Outcome.panicked a => a

/-- Whether the call panicked. -/
def Outcome.panics {α : Type} : Outcome α → Bool
  | Outcome.returned _ => false
  | Outcome.panicked _ => true

/-- Run the next call when the first returned; a panic ends the sequence. -/
def Outcome.andThen {α : Type} (o : Outcome α) (f : α → Outcome α) : Outcome α :=
  match o with
  | Outcome.returned a => f a
  | Outcome.panicked a => Outcome.panicked a

/-! ## net/http -/

namespace http

/-- The status code 200. -/
def StatusOK : Int := 200

/-- The status code 400. -/
def StatusBadRequest : Int := 400

/-- The status code 405. -/
def StatusMethodNotAllowed : Int := 405

/-- The table of `http.StatusText`; an unknown code has the empty text. -/
def StatusText (code : Int) : String :=
  if code = 100 then "Continue"
  else if code = 101 then "Switching Protocols"
  else if code = 102 then "Processing"
  else if code = 103 then "Early Hints"
  else if code = 200 then "OK"
  else if code = 201 then "Created"
  else if code = 202 then "Accepted"
  else if code = 203 then "Non-Authoritative Information"
  else if code = 204 then "No Content"
  else if code = 205 then "Reset Content"
  else if code = 206 then "Partial Content"
  else if code = 207 then "Multi-Status"
  else if code = 208 then "Already Reported"
  else if code = 226 then "IM Used"
  else if code = 300 then "Multiple Choices"
  else if code = 301 then "Moved Permanently"
  else if code = 302 then "Found"
  else if code = 303 then "See Other"
  else if code = 304 then "Not Modified"
  else if code = 305 then "Use Proxy"
  else if code = 307 then "Temporary Redirect"
  else if code = 308 then "Permanent Redirect"
  else if code = 400 then "Bad Request"
  else if code = 401 then "Unauthorized"
  else if code = 402 then "Payment Required"
  else if code = 403 then "Forbidden"
  else if code = 404 then "Not Found"
  else if code = 405 then "Method Not Allowed"
  else if code = 406 then "Not Acceptable"
  else if code = 407 then "Proxy Authentication Required"
  else if code = 408 then "Request Timeout"
  else if code = 409 then "Conflict"
  else if code = 410 then "Gone"
  else if code = 411 then "Length Required"
  else if code = 412 then "Precondition Failed"
  else if code = 413 then "Request Entity Too Large"
  else if code = 414 then "Request URI Too Long"
  else if code = 415 then "Unsupported Media Type"
  else if code = 416 then "Requested Range Not Satisfiable"
  else if code = 417 then "Expectation Failed"
  else if code = 418 then "I\x27m a teapot"
  else if code = 421 then "Misdirected Request"
  else if code = 422 then "Unprocessable Entity"
  else if code = 423 then "Locked"
  else if code = 424 then "Failed Dependency"
  else if code = 425 then "Too Early"
  else if code = 426 then "Upgrade Required"
  else if code = 428 then "Precondition Required"
  else if code = 429 then "Too Many Requests"
  else if code = 431 then "Request Header Fields Too Large"
  else if code = 451 then "Unavailable For Legal Reasons"
  else if code = 500 then "Internal Server Error"
  else if code = 501 then "Not Implemented"
  else if code = 502 then "Bad Gateway"
  else if code = 503 then "Service Unavailable"
  else if code = 504 then "Gateway Timeout"
  else if code = 505 then "HTTP Version Not Supported"
  else if code = 506 then "Variant Also Negotiates"
  else if code = 507 then "Insufficient Storage"
  else if code = 508 then "Loop Detected"
  else if code = 510 then "Not Extended"
  else if code = 511 then "Network Authentication Required"
  else ""

/-- A header map, keys in canonical form, one value per key. -/
abbrev Header := List (String × String)

/-- Model of `Header.Set`: the value replaces whatever the key held. -/
def Header.Set (h : Header) (key value : String) : Header :=
  (key, value) :: h.filter (fun p => p.1 ≠ key)

/-- Model of `Header.Get`: the value under the key, or the empty string. -/
def Header.Get (h : Header) (key : String) : String :=
  match h.find? (fun p => p.1 = key) with
  | some p => p.2
  | none => ""

/-- The parts of a `*http.Request` the handlers read: the method and the body bytes. -/
structure Request where
  Method : String
  Body : List Nat

/-- The `http.ResponseWriter` interface. `Header()` returns a map the caller mutates in
place: `Header` reads it and `withHeader` stores the mutated map back. `Write` and
`WriteHeader` can panic. -/
class ResponseWriter (W : Type) where
  Header : W → http.Header
  withHeader : W → http.Header → W
  Write : W → List Nat → Outcome W
  WriteHeader : W → Int → Outcome W

/-- One call a handler makes on its response writer. -/
inductive Call where
  | Header (update : http.Header → http.Header)
  | WriteHeader (code : Int)
  | Write (p : List Nat)

/-- Perform one call on a response writer. -/
def Call.perform {W : Type} [ResponseWriter W] (w : W) : Call → Outcome W
  | Call.Header update =>
    Outcome.returned (ResponseWriter.withHeader w (update (ResponseWriter.Header w)))
  | Call.WriteHeader code => ResponseWriter.WriteHeader w code
  | Call.Write p => ResponseWriter.Write w p

/-- Perform a sequence of calls in order, up to the first that panics. -/
def perform {W : Type} [ResponseWriter W] : List Call → W → Outcome W
  | [], w => Outcome.returned w
  | c :: rest, w => (Call.perform w c).andThen (perform rest)

end http

/-! ## net/http/httptest -/

namespace httptest

/-- Model of `httptest.ResponseRecorder`, with the status and headers a client would
see: the first `WriteHeader` fixes the code and takes a snapshot of the headers; later
calls are ignored. Content sniffing on an implicit header is left out. -/
structure ResponseRecorder where
  Code : Int
  HeaderMap : http.Header
  Body : List Nat
  wroteHeader : Bool
  snapHeader : http.Header
  deriving DecidableEq

/-- Model of `httptest.NewRecorder()`. -/
def NewRecorder : ResponseRecorder :=
  { Code := 200, HeaderMap := [], Body := [], wroteHeader := false, snapHeader := [] }

/-- Model of `(*ResponseRecorder).WriteHeader`: nothing happens once the header is
written; otherwise `checkWriteHeaderCode` panics on a code outside 100..999 before
anything is stored. -/
def ResponseRecorder.WriteHeader (rw : ResponseRecorder) (code : Int) :
    Outcome ResponseRecorder :=
  if rw.wroteHeader then Outcome.returned rw
  else if code < 100 ∨ code > 999 then Outcome.panicked rw
  else Outcome.returned
    { rw with Code := code, wroteHeader := true, snapHeader := rw.HeaderMap }

/-- Model of `(*ResponseRecorder).Write`: an unwritten header goes out as 200 first. -/
def ResponseRecorder.Write (rw : ResponseRecorder) (p : List Nat) :
    Outcome ResponseRecorder :=
  (rw.WriteHeader 200).andThen (fun rw1 => Outcome.returned { rw1 with Body := rw1.Body ++ p })

instance : http.ResponseWriter ResponseRecorder where
  Header rw := rw.HeaderMap
  withHeader rw h := { rw with HeaderMap := h }
  Write := ResponseRecorder.Write
  WriteHeader := ResponseRecorder.WriteHeader

end httptest

/-- Model of `json.NewEncoder(w).Encode(v)`: one `Write` of the JSON text and a newline. -/
def json.Encode {W : Type} [http.ResponseWriter W] (w : W) (v : Workshop) : Outcome W :=
  http.ResponseWriter.Write w (json.marshal v ++ [10])

/-! ## os and math/rand -/

namespace os

/-- The process environment: the value of each variable that is set. -/
abbrev Environ := String → Option (List Nat)

/-- Model of `os.Getenv`: the value, or the empty string when the variable is unset. -/
def Getenv (env : Environ) (key : String) : List Nat := (env key).getD []

end os

namespace rand

/-- Model of `rand.Intn(n)`: a value in `[0, n)`, here the raw output of the generator
reduced modulo `n`. -/
def Intn (n : Nat) (raw : Nat) : Int := ((raw % n : Nat) : Int)

end rand

/-! ## workshop.go -/

/-- The function `getDefaultSweaterScore` (workshop.go, lines 27-34). -/
def getDefaultSweaterScore (env : os.Environ) : Int :=
  let envScore := os.Getenv env "DEFAULT_SWEATER_SCORE"
  if envScore ≠ [] then
    match strconv.Atoi envScore with
    | some score => if score ≥ 1 ∧ score ≤ 10 then score else 10
    | none => 10
  else 10

/-- Initial value of the package-level variable `workshop` (workshop.go, lines 19-25). -/
def workshop (env : os.Environ) : Workshop :=
  { Name := bytes "ALM Workshop"
    Date := bytes "1/12/2025"
    Presentator := bytes "AE Consultants"
    SweaterScore := getDefaultSweaterScore env
    Participants := some [bytes "John Doe", bytes "Mary Little Lamb", bytes "Chuck Norris",
      bytes "Ting Lee"] }

/-- The zero value of `Workshop`, as `var newWorkshop Workshop` declares it. -/
def Workshop.zero : Workshop :=
  { Name := [], Date := [], Presentator := [], SweaterScore := 0, Participants := none }

/-- The function `getWorkshopHandler` (workshop.go, lines 36-45). `raw` is what the
random generator yields for this call, `ws` the variable `workshop` before the call;
the result is how the calls on the writer ended and the variable after the call. -/
def getWorkshopHandler {W : Type} [http.ResponseWriter W] (w : W) (_r : http.Request)
    (raw : Nat) (ws : Workshop) : Outcome W × Workshop :=
  let ws1 := { ws with SweaterScore := rand.Intn 10 raw + 1 }
  let w1 := http.ResponseWriter.withHeader w
    ((http.ResponseWriter.Header w).Set "Content-Type" "application/json")
  ((http.ResponseWriter.WriteHeader w1 http.StatusOK).andThen (fun w2 => json.Encode w2 ws1),
    ws1)

/-- The function `postWorkshopHandler` (workshop.go, lines 47-70). -/
def postWorkshopHandler {W : Type} [http.ResponseWriter W] (w : W) (r : http.Request)
    (ws : Workshop) : Outcome W × Workshop :=
  match json.Decode r.Body Workshop.zero with
  | Except.error _ =>
    ((http.ResponseWriter.WriteHeader w http.StatusBadRequest).andThen
      (fun w1 => http.ResponseWriter.Write w1 (bytes "Invalid JSON data")), ws)
  | Except.ok newWorkshop =>
    if newWorkshop.SweaterScore < 1 ∨ newWorkshop.SweaterScore > 10 then
      ((http.ResponseWriter.WriteHeader w http.StatusBadRequest).andThen
        (fun w1 => http.ResponseWriter.Write w1 (bytes "SweaterScore must be between 1 and 10")),
        ws)
    else
      let ws1 := newWorkshop
      let w1 := http.ResponseWriter.withHeader w
        ((http.ResponseWriter.Header w).Set "Content-Type" "application/json")
      ((http.ResponseWriter.WriteHeader w1 http.StatusOK).andThen
        (fun w2 => json.Encode w2 ws1), ws1)

/-- The function `WorkshopHandler` (workshop.go, lines 72-82). -/
def WorkshopHandler {W : Type} [http.ResponseWriter W] (w : W) (r : http.Request)
    (raw : Nat) (ws : Workshop) : Outcome W × Workshop :=
  if r.Method = "GET" then getWorkshopHandler w r raw ws
  else if r.Method = "POST" then postWorkshopHandler w r ws
  else
    ((http.ResponseWriter.WriteHeader w http.StatusMethodNotAllowed).andThen
      (fun w1 => http.ResponseWriter.Write w1 (bytes "Method not allowed")), ws)

/-! ## prometheus and time -/

namespace prometheus

/-- The children of a labelled collector in order of creation, each under its label
values. -/
abbrev Series (α : Type) := List (List String × α)

/-- Model of `WithLabelValues(lvs...)` followed by an update of the child it returns:
the child is created at `zero` on first use, then updated. -/
def Series.update {α : Type} (zero : α) (f : α → α) (lvs : List String) :
    Series α → Series α
  | [] => [(lvs, f zero)]
  | (k, v) :: rest =>
    if k = lvs then (k, f v) :: rest else (k, v) :: Series.update zero f lvs rest

/-- Current value of the child under the given label values, `zero` when it has not
been created. -/
def Series.get {α : Type} (zero : α) (lvs : List String) : Series α → α
  | [] => zero
  | (k, v) :: rest => if k = lvs then v else Series.get zero lvs rest

/-- A `CounterVec`: each child counts in steps of one. -/
abbrev CounterVec := Series Nat

/-- Model of `WithLabelValues(lvs...).Inc()` on a `CounterVec`. -/
def CounterVec.Inc (cv : CounterVec) (lvs : List String) : CounterVec :=
  Series.update 0 (fun n => n + 1) lvs cv

/-- Upper bounds of `prometheus.DefBuckets` (.005 s to 10 s), in nanoseconds. -/
def DefBuckets : List Int :=
  [5000000, 10000000, 25000000, 50000000, 100000000, 250000000, 500000000,
   1000000000, 2500000000, 5000000000, 10000000000]

/-- A histogram child: the count of each bucket, the sum (in nanoseconds) and the
number of observations. -/
structure Histogram where
  counts : List Nat
  sum : Int
  count : Nat
  deriving DecidableEq

/-- A histogram without observations. -/
def Histogram.zero : Histogram :=
  { counts := DefBuckets.map (fun _ => 0), sum := 0, count := 0 }

/-- Add one to the first bucket whose upper bound is not below the value. -/
def bump : List Int → List Nat → Int → List Nat
  | b :: bs, c :: cs, v => if v ≤ b then (c + 1) :: cs else c :: bump bs cs v
  | _, cs, _ => cs

/-- Model of `Observe` on a histogram child. -/
def Histogram.Observe (h : Histogram) (v : Int) : Histogram :=
  { counts := bump DefBuckets h.counts v, sum := h.sum + v, count := h.count + 1 }

/-- A `HistogramVec`. -/
abbrev HistogramVec := Series Histogram

/-- Model of `WithLabelValues(lvs...).Observe(v)` on a `HistogramVec`. -/
def HistogramVec.Observe (hv : HistogramVec) (lvs : List String) (v : Int) : HistogramVec :=
  Series.update Histogram.zero (fun h => h.Observe v) lvs hv

end prometheus

namespace time

/-- Model of `time.Since(start)` read when the clock shows `now`; both in nanoseconds
of the monotonic clock. -/
def Since (start now : Int) : Int := now - start

end time

/-! ## metrics.go -/

/-- The collectors declared in metrics.go, lines 12-55. The gauge is an integer. -/
structure Metrics where
  httpRequestsTotal : prometheus.CounterVec
  httpRequestDuration : prometheus.HistogramVec
  httpActiveRequests : Int
  workshopGetRequests : Nat
  workshopPostRequests : Nat
  deriving DecidableEq

/-- The collectors right after registration. -/
def Metrics.fresh : Metrics :=
  { httpRequestsTotal := [], httpRequestDuration := [], httpActiveRequests := 0,
    workshopGetRequests := 0, workshopPostRequests := 0 }

/-- The type `responseWriter` (metrics.go, lines 77-80): the embedded writer and the
captured status code. -/
structure responseWriter (W : Type) where
  ResponseWriter : W
  statusCode : Int

/-- The method `(*responseWriter).WriteHeader` (metrics.go, lines 82-85): the code is
stored first, then the embedded writer is called; if that call panics the stored code
stays. -/
def responseWriter.WriteHeader {W : Type} [http.ResponseWriter W] (rw : responseWriter W)
    (code : Int) : Outcome (responseWriter W) :=
  let rw1 := { rw with statusCode := code }
  match http.ResponseWriter.WriteHeader rw1.ResponseWriter code with
  | Outcome.returned w => Outcome.returned { rw1 with ResponseWriter := w }
  | Outcome.panicked w => Outcome.panicked { rw1 with ResponseWriter := w }

/-- The method `Write` that `responseWriter` takes over from the embedded writer. -/
def responseWriter.Write {W : Type} [http.ResponseWriter W] (rw : responseWriter W)
    (p : List Nat) : Outcome (responseWriter W) :=
  match http.ResponseWriter.Write rw.ResponseWriter p with
  | Outcome.returned w => Outcome.returned { rw with ResponseWriter := w }
  | Outcome.panicked w => Outcome.panicked { rw with ResponseWriter := w }

instance {W : Type} [http.ResponseWriter W] : http.ResponseWriter (responseWriter W) where
  Header rw := http.ResponseWriter.Header rw.ResponseWriter
  withHeader rw h := { rw with ResponseWriter := http.ResponseWriter.withHeader rw.ResponseWriter h }
  Write := responseWriter.Write
  WriteHeader := responseWriter.WriteHeader

/-- One thing a handler does that the middleware can tell: a call on its response
writer, a change to the package-level collectors, or a panic of its own. -/
inductive Step where
  | call (c : http.Call)
  | collect (update : Metrics → Metrics)
  | panic

/-- An `http.HandlerFunc` seen from the middleware: from the request, the collectors as
they stand when it is called and its own state, the steps it takes in order and its
state afterwards. It stops at the first step that panics. -/
abbrev HandlerFunc (σ : Type) := http.Request → Metrics → σ → List Step × σ

/-- Take one step on a response writer and the collectors. -/
def Step.perform {W : Type} [http.ResponseWriter W] (x : W × Metrics) :
    Step → Outcome (W × Metrics)
  | Step.call c =>
    match http.Call.perform x.1 c with
    | Outcome.returned w => Outcome.returned (w, x.2)
    | Outcome.panicked w => Outcome.panicked (w, x.2)
  | Step.collect update => Outcome.returned (x.1, update x.2)
  | Step.panic => Outcome.panicked x

/-- Take steps in order, up to the first that panics. -/
def Step.run {W : Type} [http.ResponseWriter W] : List Step → W × Metrics → Outcome (W × Metrics)
  | [], x => Outcome.returned x
  | st :: rest, x => (Step.perform x st).andThen (Step.run rest)

/-- The call `next.ServeHTTP(w, r)`: how it ended, with the writer and the collectors it
left, and the state of the handler afterwards. -/
def HandlerFunc.ServeHTTP {σ W : Type} [http.ResponseWriter W] (next : HandlerFunc σ)
    (w : W) (r : http.Request) (m : Metrics) (s : σ) : Outcome (W × Metrics) × σ :=
  (Step.run (next r m s).1 (w, m), (next r m s).2)

/-- What one run of the handler returned by `MetricsMiddleware` goes through: the
collectors after line 61, the wrapper and the collectors as `next.ServeHTTP` left them,
the downstream state, whether the downstream call panicked, and the collectors after
lines 69, 71 and 72. When the downstream call panics the panic passes through the
middleware and lines 68-72 do not run: the last three are the collectors as the panic
left them. -/
structure Served (W σ : Type) where
  entered : Metrics
  wrapped : responseWriter W
  handled : Metrics
  state : σ
  panicked : Bool
  left : Metrics
  counted : Metrics
  observed : Metrics

/-- The handler returned by `MetricsMiddleware(endpoint, next)` (metrics.go, lines
58-74), run on writer `w` and request `r`. `t0` is the clock at line 60, `t1` the clock
at line 68; `s` and `m` are the downstream state and the collectors before the call. -/
def MetricsMiddleware {σ W : Type} [http.ResponseWriter W] (endpoint : String)
    (next : HandlerFunc σ) (w : W) (r : http.Request) (t0 t1 : Int) (s : σ) (m : Metrics) :
    Served W σ :=
  let start := t0
  let m1 := { m with httpActiveRequests := m.httpActiveRequests + 1 }
  let wrapped : responseWriter W := { ResponseWriter := w, statusCode := http.StatusOK }
  match next.ServeHTTP wrapped r m1 s with
  | (Outcome.panicked out, s1) =>
    { entered := m1, wrapped := out.1, handled := out.2, state := s1, panicked := true,
      left := out.2, counted := out.2, observed := out.2 }
  | (Outcome.returned out, s1) =>
    let duration := time.Since start t1
    let m2 := { out.2 with httpActiveRequests := out.2.httpActiveRequests - 1 }
    let m3 := { m2 with httpRequestsTotal :=
      m2.httpRequestsTotal.Inc [r.Method, endpoint, http.StatusText out.1.statusCode] }
    let m4 := { m3 with httpRequestDuration :=
      m3.httpRequestDuration.Observe [r.Method, endpoint] duration }
    { entered := m1, wrapped := out.1, handled := out.2, state := s1, panicked := false,
      left := m2, counted := m3, observed := m4 }

/-- One request as it reaches the wrapped handler: its response writer, the request
and the two clock readings of its run. -/
structure Arrival (W : Type) where
  w : W
  r : http.Request
  t0 : Int
  t1 : Int

/-- Requests served one after another by `MetricsMiddleware(endpoint, next)`: the
downstream state and the collectors after the last one. A panic ends its own request
only, as the server recovers it. -/
def serveAll {σ W : Type} [http.ResponseWriter W] (endpoint : String) (next : HandlerFunc σ) :
    List (Arrival W) → σ → Metrics → σ × Metrics
  | [], s, m => (s, m)
  | a :: rest, s, m =>
    serveAll endpoint next rest (MetricsMiddleware endpoint next a.w a.r a.t0 a.t1 s m).state
      (MetricsMiddleware endpoint next a.w a.r a.t0 a.t1 s m).observed

/-- The value of the `endpoint` label, the second label of both labelled collectors. -/
def endpointOf : List String → Option String
  | _ :: e :: _ => some e
  | _ => none

/-- Sum of the counter children whose `endpoint` label is `e`. -/
def requestsTotal (e : String) (cv : prometheus.CounterVec) : Nat :=
  ((cv.filter (fun p => decide (endpointOf p.1 = some e))).map (fun p => p.2)).sum

/-- Sum of the observation counts of the histogram children whose `endpoint` label is
`e`. -/
def observationCount (e : String) (hv : prometheus.HistogramVec) : Nat :=
  ((hv.filter (fun p => decide (endpointOf p.1 = some e))).map (fun p => p.2.count)).sum

/-- The calls on the response writer among the steps of a handler. -/
def callsOf : List Step → List http.Call
  | [] => []
  | Step.call c :: rest => c :: callsOf rest
  | _ :: rest => callsOf rest

/-- The code of the last `WriteHeader` call in a sequence of calls, if there is one. -/
def lastWriteHeader : List http.Call → Option Int
  | [] => none
  | http.Call.WriteHeader code :: rest => some ((lastWriteHeader rest).getD code)
  | _ :: rest => lastWriteHeader rest

/-- The code of the first `WriteHeader` call, or 200 when a `Write` comes before any:
the status a `net/http` response writer sends for a sequence of calls; `none` when the
handler makes neither call. -/
def sentStatus : List http.Call → Option Int
  | [] => none
  | http.Call.WriteHeader code :: _ => some code
  | http.Call.Write _ :: _ => some 200
  | http.Call.Header _ :: rest => sentStatus rest

/-- No call of the sequence is a `WriteHeader`. -/
def noWriteHeader : List http.Call → Bool
  | [] => true
  | http.Call.WriteHeader _ :: _ => false
  | _ :: rest => noWriteHeader rest

/-- The handler calls `WriteHeader` at most once, and not after a `Write`. -/
def headerFirst : List http.Call → Bool
  | [] => true
  | http.Call.Header _ :: rest => headerFirst rest
  | _ :: rest => noWriteHeader rest

/-! ## Notions the statements below use -/

/-- A rune that UTF-8 encodes: a Unicode scalar value. -/
def isScalar (r : Nat) : Bool :=
  decide (r < 0xD800) || (decide (0xE000 ≤ r) && decide (r ≤ 0x10FFFF))

/-- Value of a string of decimal digits, most significant digit first. -/
def decimalValue : List Nat → Nat
  | [] => 0
  | c :: cs => (c - 48) * 10 ^ cs.length + decimalValue cs

/-- The text is a decimal integer numeral for `n`: one or more decimal digits, with an
optional sign (`+` is 43, `-` is 45) in front. -/
def ParsesAsDecimal (s : List Nat) (n : Int) : Prop :=
  ∃ ds : List Nat, ds ≠ [] ∧ (∀ c ∈ ds, strconv.isDigit c = true) ∧
    ((s = ds ∧ n = (decimalValue ds : Int)) ∨
     (s = 43 :: ds ∧ n = (decimalValue ds : Int)) ∨
     (s = 45 :: ds ∧ n = -(decimalValue ds : Int)))

/-- Values the variable `workshop` takes: its initial value under the environment
`env`, and its value after any call of `WorkshopHandler` from a value it can take. -/
inductive Stored (env : os.Environ) : Workshop → Prop where
  | init : Stored env (workshop env)
  | call {W : Type} [http.ResponseWriter W] (w : W) (r : http.Request) (raw : Nat)
      (ws : Workshop) : Stored env ws → Stored env (WorkshopHandler w r raw ws).2

/-- All string fields of the record are valid UTF-8. -/
def Workshop.validUTF8 (v : Workshop) : Bool :=
  utf8.Valid v.Name && utf8.Valid v.Date && utf8.Valid v.Presentator &&
    (v.Participants.getD []).all utf8.Valid

/-- The record posted by `TestPostWorkshopHandler_ValidData`. -/
def validData : Workshop :=
  { Name := bytes "New Workshop", Date := bytes "2/15/2026",
    Presentator := bytes "Test Presenter", SweaterScore := 8,
    Participants := some [bytes "Alice", bytes "Bob"] }

/-- The record posted by `TestPostWorkshopHandler_SweaterScoreTooLow`. -/
def scoreTooLow : Workshop :=
  { Name := bytes "Test Workshop", Date := bytes "2/15/2026",
    Presentator := bytes "Test Presenter", SweaterScore := 0,
    Participants := some [bytes "Alice"] }

/-- The record posted by `TestPostWorkshopHandler_SweaterScoreTooHigh`. -/
def scoreTooHigh : Workshop :=
  { Name := bytes "Test Workshop", Date := bytes "2/15/2026",
    Presentator := bytes "Test Presenter", SweaterScore := 11,
    Participants := some [bytes "Alice"] }

/-- A record whose `Name` is the single byte 0xff, which is not valid UTF-8. -/
def invalidName : Workshop :=
  { Name := [0xff], Date := bytes "2/15/2026", Presentator := bytes "Test Presenter",
    SweaterScore := 5, Participants := some [bytes "Alice"] }

/-- The body `{"sweaterScore":5}x`: a complete JSON object followed by the letter `x`. -/
def trailingBody : List Nat := bytes "\x7b\"sweaterScore\":5\x7dx"

/-- An environment in which only `DEFAULT_SWEATER_SCORE` is set. -/
def envWith (value : String) : os.Environ :=
  fun key => if key = "DEFAULT_SWEATER_SCORE" then some (bytes value) else none

/-- A downstream handler that always responds 200. -/
def okHandler : HandlerFunc Unit :=
  fun _ _ s => ([Step.call (http.Call.WriteHeader 200)], s)

/-- A downstream handler that only writes a body. -/
def bodyOnlyHandler : HandlerFunc Unit :=
  fun _ _ s => ([Step.call (http.Call.Write (bytes "hello"))], s)

/-- A downstream handler that responds 400. -/
def badRequestHandler : HandlerFunc Unit :=
  fun _ _ s => ([Step.call (http.Call.WriteHeader 400),
    Step.call (http.Call.Write (bytes "Invalid JSON data"))], s)

/-- A downstream handler that starts the body and then reports an error, the way
`http.Error` after a first `Write` does. -/
def lateErrorHandler : HandlerFunc Unit :=
  fun _ _ s => ([Step.call (http.Call.Write (bytes "partial")),
    Step.call (http.Call.WriteHeader 500)], s)

/-- A downstream handler that calls `w.WriteHeader(0)`, which panics in the writer. -/
def zeroCodeHandler : HandlerFunc Unit :=
  fun _ _ s => ([Step.call (http.Call.WriteHeader 0)], s)

/-- A downstream handler that panics by itself. -/
def panicHandler : HandlerFunc Unit := fun _ _ s => ([Step.panic], s)

/-- Five GET requests, each on a recorder of its own. -/
def fiveGets : List (Arrival httptest.ResponseRecorder) :=
  List.replicate 5
    { w := httptest.NewRecorder, r := { Method := "GET", Body := [] }, t0 := 0, t1 := 1 }

/-- One GET request on a fresh recorder. -/
def oneGet : Arrival httptest.ResponseRecorder :=
  { w := httptest.NewRecorder, r := { Method := "GET", Body := [] }, t0 := 0, t1 := 1 }

/-! ## Further notions of the statements and proofs -/

/-- The bytes with every byte that is not part of a valid UTF-8 encoding replaced by the
encoding of U+FFFD, which is what the JSON encoder writes and the JSON decoder stores
for a string. The first argument counts bytes of the current rune still to be
passed. -/
def replaceInvalid : Nat → List Nat → List Nat
  | _, [] => []
  | skip + 1, b :: rest => b :: replaceInvalid skip rest
  | 0, b :: rest =>
    if b < 0x80 then b :: replaceInvalid 0 rest
    else if (utf8.DecodeRune (b :: rest)).2 = 1 then
      [0xEF, 0xBF, 0xBD] ++ replaceInvalid 0 rest
    else b :: replaceInvalid ((utf8.DecodeRune (b :: rest)).2 - 1) rest

namespace json

/-- The escape the encoder writes for a rune at or above 0x80. -/
def escapeRune (r : Nat) : List Nat :=
  if r = 0x2028 ∨ r = 0x2029 then [backslash, 117, 50, 48, 50, hexDigit (r % 16)]
  else utf8.EncodeRune r

end json

/-- The record with `replaceInvalid` applied to every string in it. -/
def Workshop.coerced (v : Workshop) : Workshop :=
  { Name := replaceInvalid 0 v.Name
    Date := replaceInvalid 0 v.Date
    Presentator := replaceInvalid 0 v.Presentator
    SweaterScore := v.SweaterScore
    Participants := v.Participants.map (fun ps => ps.map (replaceInvalid 0)) }

namespace json

/-- A value that is not a string, or is a string of valid UTF-8. -/
def Value.validString : Value → Bool
  | Value.string s => utf8.Valid s
  | _ => true

/-- A value whose string, or whose elements that are strings, are valid UTF-8. -/
def Value.validStrings : Value → Bool
  | Value.string s => utf8.Valid s
  | Value.array es => es.all Value.validString
  | _ => true

end json

/-- No step of the handler changes the collectors. -/
def leavesCollectors : List Step → Bool
  | [] => true
  | Step.collect _ :: _ => false
  | _ :: rest => leavesCollectors rest

/-- The body bytes a sequence of calls writes, in order. -/
def writtenBody : List http.Call → List Nat
  | [] => []
  | http.Call.Write p :: rest => p ++ writtenBody rest
  | _ :: rest => writtenBody rest

set_option maxRecDepth 100000

/-! # Theorems -/

/-! ## UTF-8: encoding a scalar value and decoding it again -/

namespace utf8

theorem isScalar_iff (r : Nat) :
    isScalar r = true ↔ (r < 0xD800 ∨ (0xE000 ≤ r ∧ r ≤ 0x10FFFF)) := by
  simp [isScalar]

theorem EncodeRune_ascii (r : Nat) (h : r < 0x80) : EncodeRune r = [r] := by
  simp [EncodeRune, h]

theorem EncodeRune_two (r : Nat) (h1 : 0x80 ≤ r) (h2 : r < 0x800) :
    EncodeRune r = [0xC0 + r / 64, 0x80 + r % 64] := by
  have : ¬ r < 0x80 := by omega
  simp [EncodeRune, this, h2]

theorem EncodeRune_three (r : Nat) (h1 : 0x800 ≤ r) (h2 : r < 0x10000)
    (h3 : ¬(0xD800 ≤ r ∧ r < 0xE000)) :
    EncodeRune r = [0xE0 + r / 4096, 0x80 + r / 64 % 64, 0x80 + r % 64] := by
  have a : ¬ r < 0x80 := by omega
  have b : ¬ r < 0x800 := by omega
  have c : ¬((0xD800 ≤ r ∧ r < 0xE000) ∨ 0x10FFFF < r) := by omega
  simp only [EncodeRune, a, b, c, h2, if_false, if_true]

theorem EncodeRune_four (r : Nat) (h1 : 0x10000 ≤ r) (h2 : r ≤ 0x10FFFF) :
    EncodeRune r =
      [0xF0 + r / 262144, 0x80 + r / 4096 % 64, 0x80 + r / 64 % 64, 0x80 + r % 64] := by
  have a : ¬ r < 0x80 := by omega
  have b : ¬ r < 0x800 := by omega
  have c : ¬((0xD800 ≤ r ∧ r < 0xE000) ∨ 0x10FFFF < r) := by omega
  have d : ¬ r < 0x10000 := by omega
  simp only [EncodeRune, a, b, c, d, if_false]

theorem DecodeRune_two (p0 b1 : Nat) (tail : List Nat) (h1 : 0xC2 ≤ p0) (h2 : p0 ≤ 0xDF)
    (h3 : 0x80 ≤ b1) (h4 : b1 ≤ 0xBF) :
    DecodeRune (p0 :: b1 :: tail) = ((p0 - 0xC0) * 64 + (b1 - 0x80), 2) := by
  have a : ¬ p0 < 0x80 := by omega
  have b : ¬ p0 < 0xC2 := by omega
  simp only [DecodeRune, a, b, h2, h3, h4, if_false, if_true, and_self]

theorem DecodeRune_three (p0 b1 b2 : Nat) (tail : List Nat) (h1 : 0xE0 ≤ p0)
    (h2 : p0 ≤ 0xEF) (h3 : (if p0 = 0xE0 then 0xA0 else 0x80) ≤ b1)
    (h4 : b1 ≤ (if p0 = 0xED then 0x9F else 0xBF)) (h5 : 0x80 ≤ b2) (h6 : b2 ≤ 0xBF) :
    DecodeRune (p0 :: b1 :: b2 :: tail) =
      ((p0 - 0xE0) * 4096 + (b1 - 0x80) * 64 + (b2 - 0x80), 3) := by
  have a : ¬ p0 < 0x80 := by omega
  have b : ¬ p0 < 0xC2 := by omega
  have c : ¬ p0 ≤ 0xDF := by omega
  simp only [DecodeRune, a, b, c, h2, h3, h4, h5, h6, if_false, if_true, and_self]

theorem DecodeRune_four (p0 b1 b2 b3 : Nat) (tail : List Nat) (h1 : 0xF0 ≤ p0)
    (h2 : p0 ≤ 0xF4) (h3 : (if p0 = 0xF0 then 0x90 else 0x80) ≤ b1)
    (h4 : b1 ≤ (if p0 = 0xF4 then 0x8F else 0xBF)) (h5 : 0x80 ≤ b2) (h6 : b2 ≤ 0xBF)
    (h7 : 0x80 ≤ b3) (h8 : b3 ≤ 0xBF) :
    DecodeRune (p0 :: b1 :: b2 :: b3 :: tail) =
      ((p0 - 0xF0) * 262144 + (b1 - 0x80) * 4096 + (b2 - 0x80) * 64 + (b3 - 0x80), 4) := by
  have a : ¬ p0 < 0x80 := by omega
  have b : ¬ p0 < 0xC2 := by omega
  have c : ¬ p0 ≤ 0xDF := by omega
  have d : ¬ p0 ≤ 0xEF := by omega
  simp only [DecodeRune, a, b, c, d, h2, h3, h4, h5, h6, h7, h8, if_false, if_true, and_self]

/-- Decoding the encoding of a scalar value gives the value and the width of the
encoding, whatever follows. -/
theorem DecodeRune_EncodeRune (r : Nat) (h : isScalar r = true) (tail : List Nat) :
    DecodeRune (EncodeRune r ++ tail) = (r, (EncodeRune r).length) := by
  rw [isScalar_iff] at h
  by_cases c1 : r < 0x80
  · rw [EncodeRune_ascii r c1]
    simp [DecodeRune, c1]
  · by_cases c2 : r < 0x800
    · rw [EncodeRune_two r (by omega) c2]
      simp only [List.cons_append, List.nil_append, List.length_cons, List.length_nil]
      rw [DecodeRune_two _ _ _ (by omega) (by omega) (by omega) (by omega)]
      congr 1
      omega
    · by_cases c3 : r < 0x10000
      · rw [EncodeRune_three r (by omega) c3 (by omega)]
        simp only [List.cons_append, List.nil_append, List.length_cons, List.length_nil]
        rw [DecodeRune_three _ _ _ _ (by omega) (by omega) (by split_ifs <;> omega)
          (by split_ifs <;> omega) (by omega) (by omega)]
        congr 1
        omega
      · rw [EncodeRune_four r (by omega) (by omega)]
        simp only [List.cons_append, List.nil_append, List.length_cons, List.length_nil]
        rw [DecodeRune_four _ _ _ _ _ (by omega) (by omega) (by split_ifs <;> omega)
          (by split_ifs <;> omega) (by omega) (by omega) (by omega) (by omega)]
        congr 1
        omega

/-- The encoding of a scalar value at or above 0x80 starts with a byte at or above
0x80 and has at least two bytes. -/
theorem EncodeRune_high (r : Nat) (h : isScalar r = true) (c1 : ¬ r < 0x80) :
    ∃ (b : Nat) (bs : List Nat), EncodeRune r = b :: bs ∧ 0x80 ≤ b ∧
      bs.length + 1 = (EncodeRune r).length ∧ 1 ≤ bs.length := by
  rw [isScalar_iff] at h
  by_cases c2 : r < 0x800
  · rw [EncodeRune_two r (by omega) c2]
    refine ⟨_, _, rfl, ?_, rfl, ?_⟩
    · show (128 : Nat) ≤ _
      omega
    · simp
  · by_cases c3 : r < 0x10000
    · rw [EncodeRune_three r (by omega) c3 (by omega)]
      refine ⟨_, _, rfl, ?_, rfl, ?_⟩
      · show (128 : Nat) ≤ _
        omega
      · simp
    · rw [EncodeRune_four r (by omega) (by omega)]
      refine ⟨_, _, rfl, ?_, rfl, ?_⟩
      · show (128 : Nat) ≤ _
        omega
      · simp

/-- The first bytes of a string that does not start with an ASCII byte: they are not a
valid encoding, or they are the encoding of a scalar value at or above 0x80. -/
theorem DecodeRune_cases (b : Nat) (rest : List Nat) (hb : ¬ b < 0x80) :
    DecodeRune (b :: rest) = (RuneError, 1) ∨
    ∃ (r : Nat) (tail : List Nat), isScalar r = true ∧ ¬ r < 0x80 ∧
      b :: rest = EncodeRune r ++ tail ∧
      DecodeRune (b :: rest) = (r, (EncodeRune r).length) := by
  by_cases h1 : b < 0xC2
  · left
    simp only [DecodeRune, hb, h1, if_false, if_true]
  by_cases h2 : b ≤ 0xDF
  · cases rest with
    | nil => left; simp only [DecodeRune, hb, h1, h2, if_false, if_true]
    | cons b1 t =>
      by_cases hc : 0x80 ≤ b1 ∧ b1 ≤ 0xBF
      · right
        have hr : isScalar ((b - 0xC0) * 64 + (b1 - 0x80)) = true := by
          rw [isScalar_iff]; omega
        have he : EncodeRune ((b - 0xC0) * 64 + (b1 - 0x80)) = [b, b1] := by
          rw [EncodeRune_two _ (by omega) (by omega)]
          congr 1
          · omega
          · congr 1; omega
        refine ⟨(b - 0xC0) * 64 + (b1 - 0x80), t, hr, by omega, ?_, ?_⟩
        · rw [he]; rfl
        · rw [he, DecodeRune_two _ _ _ (by omega) h2 hc.1 hc.2]; rfl
      · left
        simp only [DecodeRune, hb, h1, h2, hc, if_false, if_true]
  by_cases h3 : b ≤ 0xEF
  · match rest with
    | [] => left; simp only [DecodeRune, hb, h1, h2, h3, if_false, if_true]
    | [_] => left; simp only [DecodeRune, hb, h1, h2, h3, if_false, if_true]
    | b1 :: b2 :: t =>
      by_cases hc : (if b = 0xE0 then 0xA0 else 0x80) ≤ b1 ∧
          b1 ≤ (if b = 0xED then 0x9F else 0xBF) ∧ 0x80 ≤ b2 ∧ b2 ≤ 0xBF
      · right
        have hc1 : (if b = 0xE0 then 0xA0 else 0x80) ≤ b1 := hc.1
        have hc2 : b1 ≤ (if b = 0xED then 0x9F else 0xBF) := hc.2.1
        have k1 : 0x80 ≤ b1 ∧ (b = 0xE0 → 0xA0 ≤ b1) := by
          split_ifs at hc1 <;> omega
        have k2 : b1 ≤ 0xBF ∧ (b = 0xED → b1 ≤ 0x9F) := by
          split_ifs at hc2 <;> omega
        have hr : isScalar ((b - 0xE0) * 4096 + (b1 - 0x80) * 64 + (b2 - 0x80)) = true := by
          rw [isScalar_iff]; omega
        have he : EncodeRune ((b - 0xE0) * 4096 + (b1 - 0x80) * 64 + (b2 - 0x80)) =
            [b, b1, b2] := by
          rw [EncodeRune_three _ (by omega) (by omega) (by omega)]
          congr 1
          · omega
          · congr 1
            · omega
            · congr 1; omega
        refine ⟨(b - 0xE0) * 4096 + (b1 - 0x80) * 64 + (b2 - 0x80), t, hr, by omega, ?_, ?_⟩
        · rw [he]; rfl
        · rw [he, DecodeRune_three _ _ _ _ (by omega) h3 hc.1 hc.2.1 hc.2.2.1 hc.2.2.2]; rfl
      · left
        simp only [DecodeRune, hb, h1, h2, h3, hc, if_false, if_true]
  by_cases h4 : b ≤ 0xF4
  · match rest with
    | [] => left; simp only [DecodeRune, hb, h1, h2, h3, h4, if_false, if_true]
    | [_] => left; simp only [DecodeRune, hb, h1, h2, h3, h4, if_false, if_true]
    | [_, _] => left; simp only [DecodeRune, hb, h1, h2, h3, h4, if_false, if_true]
    | b1 :: b2 :: b3 :: t =>
      by_cases hc : (if b = 0xF0 then 0x90 else 0x80) ≤ b1 ∧
          b1 ≤ (if b = 0xF4 then 0x8F else 0xBF) ∧ 0x80 ≤ b2 ∧ b2 ≤ 0xBF ∧
          0x80 ≤ b3 ∧ b3 ≤ 0xBF
      · right
        have hc1 : (if b = 0xF0 then 0x90 else 0x80) ≤ b1 := hc.1
        have hc2 : b1 ≤ (if b = 0xF4 then 0x8F else 0xBF) := hc.2.1
        have k1 : 0x80 ≤ b1 ∧ (b = 0xF0 → 0x90 ≤ b1) := by
          split_ifs at hc1 <;> omega
        have k2 : b1 ≤ 0xBF ∧ (b = 0xF4 → b1 ≤ 0x8F) := by
          split_ifs at hc2 <;> omega
        have hr : isScalar ((b - 0xF0) * 262144 + (b1 - 0x80) * 4096 + (b2 - 0x80) * 64 +
            (b3 - 0x80)) = true := by
          rw [isScalar_iff]; omega
        have he : EncodeRune ((b - 0xF0) * 262144 + (b1 - 0x80) * 4096 + (b2 - 0x80) * 64 +
            (b3 - 0x80)) = [b, b1, b2, b3] := by
          rw [EncodeRune_four _ (by omega) (by omega)]
          congr 1
          · omega
          · congr 1
            · omega
            · congr 1
              · omega
              · congr 1; omega
        refine ⟨(b - 0xF0) * 262144 + (b1 - 0x80) * 4096 + (b2 - 0x80) * 64 + (b3 - 0x80), t,
          hr, by omega, ?_, ?_⟩
        · rw [he]; rfl
        · rw [he, DecodeRune_four _ _ _ _ _ (by omega) h4 hc.1 hc.2.1 hc.2.2.1 hc.2.2.2.1
            hc.2.2.2.2.1 hc.2.2.2.2.2]; rfl
      · left
        simp only [DecodeRune, hb, h1, h2, h3, h4, hc, if_false, if_true]
  · left
    simp only [DecodeRune, hb, h1, h2, h3, h4, if_false, if_true]

/-- Induction over a byte string rune by rune: an ASCII byte, a byte that starts no
valid encoding, or the encoding of a scalar value at or above 0x80. -/
theorem runes_induction (P : List Nat → Prop) (hnil : P [])
    (hascii : ∀ (b : Nat) (t : List Nat), b < 0x80 → P t → P (b :: t))
    (hinvalid : ∀ (b : Nat) (t : List Nat), ¬ b < 0x80 →
      DecodeRune (b :: t) = (RuneError, 1) → P t → P (b :: t))
    (hrune : ∀ (r : Nat) (t : List Nat), isScalar r = true → ¬ r < 0x80 → P t →
      P (EncodeRune r ++ t)) :
    ∀ s : List Nat, P s := by
  have key : ∀ (n : Nat) (s : List Nat), s.length ≤ n → P s := by
    intro n
    induction n with
    | zero =>
      intro s hs
      cases s with
      | nil => exact hnil
      | cons b t => simp at hs
    | succ n ih =>
      intro s hs
      cases s with
      | nil => exact hnil
      | cons b t =>
        have ht : t.length ≤ n := by simp at hs; omega
        by_cases hb : b < 0x80
        · exact hascii b t hb (ih t ht)
        · rcases DecodeRune_cases b t hb with hd | ⟨r, tail, hs1, hr, he, _⟩
          · exact hinvalid b t hb hd (ih t ht)
          · rw [he]
            obtain ⟨b1, bs, hb1, _, _, _⟩ := EncodeRune_high r hs1 hr
            have hl : (b :: t).length = (EncodeRune r ++ tail).length := by rw [he]
            rw [hb1] at hl
            simp at hl
            exact hrune r tail hs1 hr (ih tail (by omega))
  intro s
  exact key s.length s (le_refl _)

theorem validFrom_skip (bs t : List Nat) : validFrom bs.length (bs ++ t) = validFrom 0 t := by
  induction bs with
  | nil => rfl
  | cons b bs ih => simpa [validFrom] using ih

theorem validFrom_EncodeRune (r : Nat) (hs : isScalar r = true) (t : List Nat) :
    validFrom 0 (EncodeRune r ++ t) = validFrom 0 t := by
  by_cases hr : r < 0x80
  · rw [EncodeRune_ascii r hr]
    simp [validFrom, hr]
  · obtain ⟨b, bs, he, hb, hl, h1⟩ := EncodeRune_high r hs hr
    have hd := DecodeRune_EncodeRune r hs t
    rw [he] at hd ⊢
    simp only [List.cons_append, List.length_cons] at hd
    have hnb : ¬ b < 0x80 := by omega
    have h2 : ¬ (bs.length + 1 = 1) := by omega
    rw [List.cons_append]
    simp only [validFrom, hnb, hd, if_false, h2]
    simpa using validFrom_skip bs t

end utf8

theorem replaceInvalid_skip (bs t : List Nat) :
    replaceInvalid bs.length (bs ++ t) = bs ++ replaceInvalid 0 t := by
  induction bs with
  | nil => rfl
  | cons b bs ih => simpa [replaceInvalid] using ih

theorem replaceInvalid_EncodeRune (r : Nat) (hs : isScalar r = true) (t : List Nat) :
    replaceInvalid 0 (utf8.EncodeRune r ++ t) = utf8.EncodeRune r ++ replaceInvalid 0 t := by
  by_cases hr : r < 0x80
  · rw [utf8.EncodeRune_ascii r hr]
    simp [replaceInvalid, hr]
  · obtain ⟨b, bs, he, hb, hl, h1⟩ := utf8.EncodeRune_high r hs hr
    have hd := utf8.DecodeRune_EncodeRune r hs t
    rw [he] at hd ⊢
    simp only [List.cons_append, List.length_cons] at hd
    have hnb : ¬ b < 0x80 := by omega
    have h2 : ¬ (bs.length + 1 = 1) := by omega
    rw [List.cons_append]
    simp only [replaceInvalid, hnb, hd, if_false, h2]
    simpa using replaceInvalid_skip bs t

/-- Valid UTF-8 is left as it is. -/
theorem replaceInvalid_valid (s : List Nat) (h : utf8.Valid s = true) :
    replaceInvalid 0 s = s := by
  revert h
  unfold utf8.Valid
  refine utf8.runes_induction (fun s => utf8.validFrom 0 s = true → replaceInvalid 0 s = s)
    ?_ ?_ ?_ ?_ s
  · intro _; rfl
  · intro b t hb ih h
    simp only [utf8.validFrom, hb, if_true] at h
    simp [replaceInvalid, hb, ih h]
  · intro b t hb hd _ h
    simp [utf8.validFrom, hb, hd] at h
  · intro r t hs _ ih h
    rw [utf8.validFrom_EncodeRune r hs] at h
    rw [replaceInvalid_EncodeRune r hs, ih h]

/-- What `replaceInvalid` returns is valid UTF-8. -/
theorem Valid_replaceInvalid (s : List Nat) : utf8.Valid (replaceInvalid 0 s) = true := by
  unfold utf8.Valid
  refine utf8.runes_induction (fun s => utf8.validFrom 0 (replaceInvalid 0 s) = true)
    ?_ ?_ ?_ ?_ s
  · rfl
  · intro b t hb ih
    simp [replaceInvalid, utf8.validFrom, hb, ih]
  · intro b t hb hd ih
    have h1 : replaceInvalid 0 (b :: t) = utf8.EncodeRune 0xFFFD ++ replaceInvalid 0 t := by
      simp [replaceInvalid, hb, hd, utf8.EncodeRune]
    rw [h1, utf8.validFrom_EncodeRune _ (by decide)]
    exact ih
  · intro r t hs _ ih
    rw [replaceInvalid_EncodeRune r hs, utf8.validFrom_EncodeRune r hs]
    exact ih

namespace json

theorem hexVal_hexDigit : ∀ k, k < 16 → hexVal (hexDigit k) = some k := by decide

theorem getu4_low (n : Nat) (h : n < 256) (tail : List Nat) :
    getu4 (48 :: 48 :: hexDigit (n / 16) :: hexDigit (n % 16) :: tail) = some n := by
  have h1 := hexVal_hexDigit (n / 16) (by omega)
  have h2 : hexVal (hexDigit (n % 16)) = some (n % 16) := hexVal_hexDigit (n % 16) (by omega)
  have h0 : hexVal 48 = some 0 := by decide
  simp only [getu4, h0, h1, h2]
  congr 1
  omega

theorem scanString_skip (bs t : List Nat) : scanString bs.length (bs ++ t) = scanString 0 t := by
  induction bs with
  | nil => rfl
  | cons b bs ih => simpa [scanString] using ih

theorem escape_flag (c : Bool) (s : List Nat) : escape 0 c s = escape 0 true s := by
  cases c with
  | true => rfl
  | false =>
    cases s with
    | nil => rfl
    | cons b t => rfl

theorem escape_skip_copy (bs t : List Nat) :
    escape bs.length true (bs ++ t) = bs ++ escape 0 true t := by
  induction bs with
  | nil => rfl
  | cons b bs ih => simpa [escape] using ih

theorem escape_skip_drop (bs t : List Nat) :
    escape bs.length false (bs ++ t) = escape 0 true t := by
  induction bs with
  | nil => exact escape_flag false t
  | cons b bs ih => simpa [escape] using ih

/-- The escape of an ASCII byte reads back as that byte. -/
theorem scanString_escapeByte (c : Nat) (hc : c < 0x80) (tail : List Nat) :
    scanString 0 (escapeByte c ++ tail) = push [c] (scanString 0 tail) := by
  unfold escapeByte
  split_ifs with h1 h2 h3 h4 h5 h6 h7
  · rcases h1 with rfl | rfl <;>
      simp [scanString, escapeAt, unescape, quote, backslash, utf8.EncodeRune]
  · subst h2
    simp [scanString, escapeAt, unescape, quote, backslash, utf8.EncodeRune]
  · subst h3
    simp [scanString, escapeAt, unescape, quote, backslash, utf8.EncodeRune]
  · subst h4
    simp [scanString, escapeAt, unescape, quote, backslash, utf8.EncodeRune]
  · subst h5
    simp [scanString, escapeAt, unescape, quote, backslash, utf8.EncodeRune]
  · subst h6
    simp [scanString, escapeAt, unescape, quote, backslash, utf8.EncodeRune]
  · have hbq : backslash ≠ quote := by decide
    have hg := getu4_low c (by omega) tail
    have hns : ¬(55296 ≤ c ∧ c < 57344) := by omega
    have he : utf8.EncodeRune c = [c] := utf8.EncodeRune_ascii c hc
    simp [scanString, escapeAt, hbq, hg, hns, he]
  · have hq : ¬ c = quote := fun h => h1 (Or.inl h)
    have hb : ¬ c = backslash := fun h => h1 (Or.inr h)
    have h32 : ¬ c < 32 := fun h => h7 (Or.inl h)
    simp [scanString, hq, hb, h32, hc]

theorem escape_EncodeRune (r : Nat) (hs : isScalar r = true) (hr : ¬ r < 0x80) (c : Bool)
    (tail : List Nat) :
    escape 0 c (utf8.EncodeRune r ++ tail) = escapeRune r ++ escape 0 true tail := by
  obtain ⟨b, bs, he, hb, hl, h1⟩ := utf8.EncodeRune_high r hs hr
  have hd := utf8.DecodeRune_EncodeRune r hs tail
  unfold escapeRune
  rw [he] at hd ⊢
  simp only [List.cons_append, List.length_cons] at hd
  have hnb : ¬ b < 0x80 := by omega
  have h2 : ¬ (bs.length + 1 = 1) := by omega
  rw [List.cons_append]
  simp only [escape, hnb, hd, if_false, h2, and_false]
  split_ifs with h
  · simpa using escape_skip_drop bs tail
  · simpa using escape_skip_copy bs tail

theorem scanString_EncodeRune (r : Nat) (hs : isScalar r = true) (hr : ¬ r < 0x80)
    (tail : List Nat) :
    scanString 0 (utf8.EncodeRune r ++ tail) =
      push (utf8.EncodeRune r) (scanString 0 tail) := by
  obtain ⟨b, bs, he, hb, hl, h1⟩ := utf8.EncodeRune_high r hs hr
  have hd := utf8.DecodeRune_EncodeRune r hs tail
  rw [he] at hd
  simp only [List.cons_append, List.length_cons] at hd
  have hnb : ¬ b < 0x80 := by omega
  have h32 : ¬ b < 32 := by omega
  have hq : ¬ b = quote := by unfold quote; omega
  have hbs : ¬ b = backslash := by unfold backslash; omega
  conv_lhs => rw [he, List.cons_append]
  simp only [scanString, hnb, h32, hq, hbs, hd, if_false]
  congr 1
  simpa using scanString_skip bs tail

theorem scanString_escapeRune (r : Nat) (hs : isScalar r = true) (hr : ¬ r < 0x80)
    (tail : List Nat) :
    scanString 0 (escapeRune r ++ tail) = push (utf8.EncodeRune r) (scanString 0 tail) := by
  unfold escapeRune
  split_ifs with h
  · have hbq : backslash ≠ quote := by decide
    rcases h with rfl | rfl
    · have hg : getu4 (50 :: 48 :: 50 :: hexDigit (0x2028 % 16) :: tail) = some 0x2028 := by
        simp [getu4, hexVal, hexDigit]
      simp [scanString, escapeAt, hbq, hg]
    · have hg : getu4 (50 :: 48 :: 50 :: hexDigit (0x2029 % 16) :: tail) = some 0x2029 := by
        simp [getu4, hexVal, hexDigit]
      simp [scanString, escapeAt, hbq, hg]
  · exact scanString_EncodeRune r hs hr tail

theorem scanString_replacement (tail : List Nat) :
    scanString 0 ([backslash, 117, 102, 102, 102, 100] ++ tail) =
      push [0xEF, 0xBF, 0xBD] (scanString 0 tail) := by
  have hbq : backslash ≠ quote := by decide
  have hg : getu4 (102 :: 102 :: 102 :: 100 :: tail) = some 0xFFFD := by
    simp [getu4, hexVal]
  simp [scanString, escapeAt, hbq, hg, utf8.EncodeRune]

/-- Reading back the escaped text of a string gives the string with its invalid bytes
replaced, and stops right after the closing quote. -/
theorem scanString_escape (s rest : List Nat) :
    scanString 0 (escape 0 true s ++ quote :: rest) = some (replaceInvalid 0 s, rest) := by
  refine utf8.runes_induction
    (fun s => scanString 0 (escape 0 true s ++ quote :: rest) = some (replaceInvalid 0 s, rest))
    ?_ ?_ ?_ ?_ s
  · simp [escape, scanString, replaceInvalid]
  · intro b t hb ih
    have h1 : escape 0 true (b :: t) = escapeByte b ++ escape 0 true t := by
      simp [escape, hb]
    rw [h1, List.append_assoc, scanString_escapeByte b hb, ih]
    simp [push, replaceInvalid, hb]
  · intro b t hb hd ih
    have h1 : escape 0 true (b :: t) =
        [backslash, 117, 102, 102, 102, 100] ++ escape 0 true t := by
      simp [escape, hb, hd]
    rw [h1, List.append_assoc, scanString_replacement, ih]
    simp [push, replaceInvalid, hb, hd]
  · intro r t hs hr ih
    rw [escape_EncodeRune r hs hr, List.append_assoc, scanString_escapeRune r hs hr, ih,
      replaceInvalid_EncodeRune r hs]
    rfl

theorem parseValue_encodeString (fuel depth : Nat) (s rest : List Nat) :
    parseValue (fuel + 1) depth (encodeString s ++ rest) =
      some (Value.string (replaceInvalid 0 s), rest) := by
  have h1 : isSpace quote = false := by decide
  have h2 : quote ≠ lbrace := by decide
  have h3 : quote ≠ lbracket := by decide
  simp [parseValue, encodeString, skipSpace, h1, h2, h3, scanString_escape]

theorem parseElements_comma {f d : Nat} {cs r : List Nat} {v : Value}
    (h : parseValue f d cs = some (v, comma :: r)) :
    parseElements (f + 1) d cs =
      match parseElements f d r with
      | some (vs, r1) => some (v :: vs, r1)
      | none => none := by
  have h1 : isSpace comma = false := by decide
  rw [parseElements, h]
  simp only [skipSpace, h1, if_true, Bool.false_eq_true, if_false]

theorem parseElements_last {f d : Nat} {cs r : List Nat} {v : Value}
    (h : parseValue f d cs = some (v, rbracket :: r)) :
    parseElements (f + 1) d cs = some ([v], r) := by
  have h1 : isSpace rbracket = false := by decide
  have h2 : rbracket ≠ comma := by decide
  rw [parseElements, h]
  simp [skipSpace, h1, h2]

theorem parseElements_strings (d : Nat) (t : List (List Nat)) :
    ∀ (s : List Nat) (fuel : Nat) (rest : List Nat), t.length + 2 ≤ fuel →
      parseElements fuel d (encodeString s ++ (encodeTail t ++ rbracket :: rest)) =
        some (Value.string (replaceInvalid 0 s) ::
          t.map (fun x => Value.string (replaceInvalid 0 x)), rest) := by
  induction t with
  | nil =>
    intro s fuel rest h
    obtain ⟨f, rfl⟩ : ∃ f, fuel = f + 2 := ⟨fuel - 2, by omega⟩
    have hv : parseValue (f + 1) d (encodeString s ++ (encodeTail [] ++ rbracket :: rest)) =
        some (Value.string (replaceInvalid 0 s), rbracket :: rest) := by
      rw [parseValue_encodeString]
      rfl
    rw [parseElements_last hv]
    rfl
  | cons s1 t1 ih =>
    intro s fuel rest h
    obtain ⟨f, rfl⟩ : ∃ f, fuel = f + 2 := ⟨fuel - 2, by simp at h; omega⟩
    have hf : t1.length + 2 ≤ f + 1 := by simp at h; omega
    have hv : parseValue (f + 1) d (encodeString s ++ (encodeTail (s1 :: t1) ++ rbracket :: rest)) =
        some (Value.string (replaceInvalid 0 s),
          comma :: (encodeString s1 ++ (encodeTail t1 ++ rbracket :: rest))) := by
      rw [parseValue_encodeString]
      simp [encodeTail]
    rw [parseElements_comma hv, ih s1 (f + 1) rest hf]
    rfl

theorem storeStrings_strings (t : List (List Nat)) :
    storeStrings (t.map (fun x => Value.string (replaceInvalid 0 x))) [] =
      some (t.map (replaceInvalid 0)) := by
  induction t with
  | nil => rfl
  | cons s t ih =>
    simp only [List.map_cons, storeStrings, List.tail_nil, ih, storeString]

theorem parseValue_encodeSlice (ps : Option (List (List Nat))) (fuel d : Nat) (rest : List Nat)
    (hd : d + 1 ≤ maxNestingDepth) (h : (ps.getD []).length + 2 ≤ fuel) :
    ∃ v, parseValue fuel d (encodeSlice ps ++ rest) = some (v, rest) ∧
      storeSlice none [] v = some (ps.map (fun l => l.map (replaceInvalid 0)), []) := by
  obtain ⟨f, rfl⟩ : ∃ f, fuel = f + 1 := ⟨fuel - 1, by omega⟩
  have hd1 : ¬ maxNestingDepth < d + 1 := by omega
  match ps with
  | none =>
    refine ⟨Value.null, ?_, rfl⟩
    have e : encodeSlice none = [110, 117, 108, 108] := by decide
    have e1 : bytes "ull" = [117, 108, 108] := by decide
    simp [parseValue, e, e1, skipSpace, isSpace, lbrace, lbracket, quote, strconv.isDigit, expect,
      utf8.encode]
  | some [] =>
    refine ⟨Value.array [], ?_, rfl⟩
    have h1 : isSpace lbracket = false := by decide
    have h2 : isSpace rbracket = false := by decide
    have h3 : lbracket ≠ lbrace := by decide
    simp [parseValue, encodeSlice, skipSpace, h1, h2, h3, hd1]
  | some (s :: t) =>
    refine ⟨Value.array (Value.string (replaceInvalid 0 s) ::
      t.map (fun x => Value.string (replaceInvalid 0 x))), ?_, ?_⟩
    · have h1 : isSpace lbracket = false := by decide
      have h2 : isSpace quote = false := by decide
      have h3 : lbracket ≠ lbrace := by decide
      have h4 : quote ≠ rbracket := by decide
      have hf : t.length + 2 ≤ f := by simp at h; omega
      have := parseElements_strings (d + 1) t s f rest hf
      simp only [encodeString, List.cons_append, List.append_assoc, List.nil_append] at this
      simp [parseValue, encodeSlice, skipSpace, h1, h2, h3, h4, encodeString, this, hd1]
    · have := storeStrings_strings (s :: t)
      simp only [List.map_cons] at this
      simp [storeSlice, this]

theorem parseValue_digit (c : Nat) (hd : strconv.isDigit c = true) (h0 : c ≠ 48)
    (f d : Nat) (rest : List Nat) :
    parseValue (f + 1) d (c :: comma :: rest) = some (Value.number [c], comma :: rest) := by
  have hc : 48 ≤ c ∧ c ≤ 57 := by
    simpa only [strconv.isDigit, Bool.and_eq_true, decide_eq_true_eq] using hd
  have hs : isSpace c = false := by
    simp only [isSpace, Bool.or_eq_false_iff, decide_eq_false_iff_not]
    omega
  have h1 : c ≠ lbrace := by unfold lbrace; omega
  have h2 : c ≠ lbracket := by unfold lbracket; omega
  have h3 : c ≠ quote := by unfold quote; omega
  have h4 : c ≠ 45 := by omega
  have h5 : strconv.isDigit comma = false := by decide
  have h6 : comma ≠ 46 := by decide
  have h7 : comma ≠ 101 := by decide
  have h8 : comma ≠ 69 := by decide
  simp [parseValue, skipSpace, hs, h1, h2, h3, h4, hd, scanNumber, scanInt, h0, takeDigits, h5,
    scanFrac, scanExp, h6, h7, h8]

theorem parseValue_ten (f d : Nat) (rest : List Nat) :
    parseValue (f + 1) d (49 :: 48 :: comma :: rest) =
      some (Value.number [49, 48], comma :: rest) := by
  have hs : isSpace 49 = false := by decide
  have h1 : (49 : Nat) ≠ lbrace := by decide
  have h2 : (49 : Nat) ≠ lbracket := by decide
  have h3 : (49 : Nat) ≠ quote := by decide
  have h5 : strconv.isDigit comma = false := by decide
  have h6 : strconv.isDigit 49 = true := by decide
  have h7 : strconv.isDigit 48 = true := by decide
  have h8 : comma ≠ 46 := by decide
  have h9 : comma ≠ 101 := by decide
  have h10 : comma ≠ 69 := by decide
  simp [parseValue, skipSpace, hs, h1, h2, h3, scanNumber, scanInt, takeDigits, h5, h6, h7,
    scanFrac, scanExp, h8, h9, h10]

theorem parseValue_FormatInt (n : Int) (h1 : 1 ≤ n) (h2 : n ≤ 10) (f d : Nat)
    (rest : List Nat) :
    parseValue (f + 1) d (strconv.FormatInt n ++ comma :: rest) =
        some (Value.number (strconv.FormatInt n), comma :: rest) ∧
      storeInt 0 (Value.number (strconv.FormatInt n)) = some n := by
  have hn : n = 1 ∨ n = 2 ∨ n = 3 ∨ n = 4 ∨ n = 5 ∨ n = 6 ∨ n = 7 ∨ n = 8 ∨ n = 9 ∨ n = 10 := by
    omega
  rcases hn with rfl | rfl | rfl | rfl | rfl | rfl | rfl | rfl | rfl | rfl
  · exact ⟨parseValue_digit 49 (by decide) (by decide) f d rest, by decide⟩
  · exact ⟨parseValue_digit 50 (by decide) (by decide) f d rest, by decide⟩
  · exact ⟨parseValue_digit 51 (by decide) (by decide) f d rest, by decide⟩
  · exact ⟨parseValue_digit 52 (by decide) (by decide) f d rest, by decide⟩
  · exact ⟨parseValue_digit 53 (by decide) (by decide) f d rest, by decide⟩
  · exact ⟨parseValue_digit 54 (by decide) (by decide) f d rest, by decide⟩
  · exact ⟨parseValue_digit 55 (by decide) (by decide) f d rest, by decide⟩
  · exact ⟨parseValue_digit 56 (by decide) (by decide) f d rest, by decide⟩
  · exact ⟨parseValue_digit 57 (by decide) (by decide) f d rest, by decide⟩
  · exact ⟨parseValue_ten f d rest, by decide⟩

theorem scanString_plain (k rest : List Nat)
    (h : ∀ c ∈ k, c ≠ quote ∧ c ≠ backslash ∧ ¬ c < 32 ∧ c < 0x80) :
    scanString 0 (k ++ quote :: rest) = some (k, rest) := by
  induction k with
  | nil => simp [scanString]
  | cons c cs ih =>
    have hc := h c (List.mem_cons_self c cs)
    have ih1 := ih (fun d hd => h d (List.mem_cons_of_mem c hd))
    simp [scanString, hc.1, hc.2.1, hc.2.2.1, hc.2.2.2, ih1, push]

theorem parseMembers_comma {f d : Nat} {cs r : List Nat} {v : Value} (k : String)
    (hk : ∀ c ∈ bytes k, c ≠ quote ∧ c ≠ backslash ∧ ¬ c < 32 ∧ c < 0x80)
    (h : parseValue f d cs = some (v, comma :: r)) :
    parseMembers (f + 1) d (encodeKey k ++ cs) =
      match parseMembers f d r with
      | some (ms, r5) => some ((bytes k, v) :: ms, r5)
      | none => none := by
  have h1 : isSpace quote = false := by decide
  have h2 : isSpace colon = false := by decide
  have h3 : isSpace comma = false := by decide
  have hs := scanString_plain (bytes k) (colon :: cs) hk
  rw [parseMembers]
  simp [encodeKey, skipSpace, h1, h2, h3, hs, h]

theorem parseMembers_last {f d : Nat} {cs r : List Nat} {v : Value} (k : String)
    (hk : ∀ c ∈ bytes k, c ≠ quote ∧ c ≠ backslash ∧ ¬ c < 32 ∧ c < 0x80)
    (h : parseValue f d cs = some (v, rbrace :: r)) :
    parseMembers (f + 1) d (encodeKey k ++ cs) = some ([(bytes k, v)], r) := by
  have h1 : isSpace quote = false := by decide
  have h2 : isSpace colon = false := by decide
  have h3 : isSpace rbrace = false := by decide
  have h4 : rbrace ≠ comma := by decide
  have hs := scanString_plain (bytes k) (colon :: cs) hk
  rw [parseMembers]
  simp [encodeKey, skipSpace, h1, h2, h3, h4, hs, h]

theorem parseValue_object {f d : Nat} (hd : d + 1 ≤ maxNestingDepth) (k : String)
    (cs : List Nat) :
    parseValue (f + 1) d (lbrace :: (encodeKey k ++ cs)) =
      match parseMembers f (d + 1) (encodeKey k ++ cs) with
      | some (ms, r) => some (Value.object ms, r)
      | none => none := by
  have h1 : isSpace lbrace = false := by decide
  have h2 : isSpace quote = false := by decide
  have h3 : quote ≠ rbrace := by decide
  have hd1 : ¬ maxNestingDepth < d + 1 := by omega
  rw [parseValue]
  simp [encodeKey, skipSpace, h1, h2, h3, hd1]

theorem plain_name :
    ∀ c ∈ bytes "name", c ≠ quote ∧ c ≠ backslash ∧ ¬ c < 32 ∧ c < 0x80 := by decide

theorem plain_date :
    ∀ c ∈ bytes "date", c ≠ quote ∧ c ≠ backslash ∧ ¬ c < 32 ∧ c < 0x80 := by decide

theorem plain_presentator :
    ∀ c ∈ bytes "presentator", c ≠ quote ∧ c ≠ backslash ∧ ¬ c < 32 ∧ c < 0x80 := by decide

theorem plain_sweaterScore :
    ∀ c ∈ bytes "sweaterScore", c ≠ quote ∧ c ≠ backslash ∧ ¬ c < 32 ∧ c < 0x80 := by decide

theorem plain_participants :
    ∀ c ∈ bytes "participants", c ≠ quote ∧ c ≠ backslash ∧ ¬ c < 32 ∧ c < 0x80 := by decide

theorem parseValue_marshal (v : Workshop) (h1 : 1 ≤ v.SweaterScore) (h2 : v.SweaterScore ≤ 10)
    (fuel : Nat) (rest : List Nat) (hf : (v.Participants.getD []).length + 8 ≤ fuel) :
    ∃ pv, parseValue fuel 0 (marshal v ++ rest) =
        some (Value.object
          [(bytes "name", Value.string (replaceInvalid 0 v.Name)),
           (bytes "date", Value.string (replaceInvalid 0 v.Date)),
           (bytes "presentator", Value.string (replaceInvalid 0 v.Presentator)),
           (bytes "sweaterScore", Value.number (strconv.FormatInt v.SweaterScore)),
           (bytes "participants", pv)], rest) ∧
      storeSlice none [] pv =
        some (v.Participants.map (fun l => l.map (replaceInvalid 0)), []) := by
  obtain ⟨f, rfl⟩ : ∃ f, fuel = f + 8 := ⟨fuel - 8, by omega⟩
  have hd1 : 1 + 1 ≤ maxNestingDepth := by decide
  have hd0 : 0 + 1 ≤ maxNestingDepth := by decide
  obtain ⟨pv, hp, hs⟩ := parseValue_encodeSlice v.Participants (f + 2) 1 (rbrace :: rest) hd1
    (by omega)
  refine ⟨pv, ?_, hs⟩
  have e5 := parseMembers_last "participants" plain_participants hp
  have e4 := parseMembers_comma "sweaterScore" plain_sweaterScore
    (parseValue_FormatInt v.SweaterScore h1 h2 (f + 2) 1
      (encodeKey "participants" ++ (encodeSlice v.Participants ++ rbrace :: rest))).1
  have e3 := parseMembers_comma "presentator" plain_presentator
    (parseValue_encodeString (f + 3) 1 v.Presentator
      (comma :: (encodeKey "sweaterScore" ++ (strconv.FormatInt v.SweaterScore ++ comma ::
        (encodeKey "participants" ++ (encodeSlice v.Participants ++ rbrace :: rest))))))
  have e2 := parseMembers_comma "date" plain_date
    (parseValue_encodeString (f + 4) 1 v.Date
      (comma :: (encodeKey "presentator" ++ (encodeString v.Presentator ++ comma ::
        (encodeKey "sweaterScore" ++ (strconv.FormatInt v.SweaterScore ++ comma ::
        (encodeKey "participants" ++ (encodeSlice v.Participants ++ rbrace :: rest))))))))
  have e1 := parseMembers_comma "name" plain_name
    (parseValue_encodeString (f + 5) 1 v.Name
      (comma :: (encodeKey "date" ++ (encodeString v.Date ++ comma ::
        (encodeKey "presentator" ++ (encodeString v.Presentator ++ comma ::
        (encodeKey "sweaterScore" ++ (strconv.FormatInt v.SweaterScore ++ comma ::
        (encodeKey "participants" ++ (encodeSlice v.Participants ++ rbrace :: rest))))))))))
  rw [e5] at e4
  rw [e4] at e3
  rw [e3] at e2
  rw [e2] at e1
  have e0 := @parseValue_object (f + 7) 0 hd0 "name" (encodeString v.Name ++ comma ::
        (encodeKey "date" ++ (encodeString v.Date ++ comma ::
        (encodeKey "presentator" ++ (encodeString v.Presentator ++ comma ::
        (encodeKey "sweaterScore" ++ (strconv.FormatInt v.SweaterScore ++ comma ::
        (encodeKey "participants" ++ (encodeSlice v.Participants ++ rbrace :: rest)))))))))
  rw [e1] at e0
  simp only [marshal, List.cons_append, List.append_assoc, List.nil_append] at e0 ⊢
  exact e0

theorem unmarshal_members (v : Workshop) (pv : Value) (h1 : 1 ≤ v.SweaterScore)
    (h2 : v.SweaterScore ≤ 10)
    (hs : storeSlice none [] pv =
      some (v.Participants.map (fun l => l.map (replaceInvalid 0)), [])) :
    unmarshal Workshop.zero (Value.object
      [(bytes "name", Value.string (replaceInvalid 0 v.Name)),
       (bytes "date", Value.string (replaceInvalid 0 v.Date)),
       (bytes "presentator", Value.string (replaceInvalid 0 v.Presentator)),
       (bytes "sweaterScore", Value.number (strconv.FormatInt v.SweaterScore)),
       (bytes "participants", pv)]) = some v.coerced := by
  have hi := (parseValue_FormatInt v.SweaterScore h1 h2 0 0 []).2
  have k11 : sameField (bytes "name") "name" = true := by decide
  have k21 : sameField (bytes "date") "name" = false := by decide
  have k22 : sameField (bytes "date") "date" = true := by decide
  have k31 : sameField (bytes "presentator") "name" = false := by decide
  have k32 : sameField (bytes "presentator") "date" = false := by decide
  have k33 : sameField (bytes "presentator") "presentator" = true := by decide
  have k41 : sameField (bytes "sweaterScore") "name" = false := by decide
  have k42 : sameField (bytes "sweaterScore") "date" = false := by decide
  have k43 : sameField (bytes "sweaterScore") "presentator" = false := by decide
  have k44 : sameField (bytes "sweaterScore") "sweaterScore" = true := by decide
  have k51 : sameField (bytes "participants") "name" = false := by decide
  have k52 : sameField (bytes "participants") "date" = false := by decide
  have k53 : sameField (bytes "participants") "presentator" = false := by decide
  have k54 : sameField (bytes "participants") "sweaterScore" = false := by decide
  have k55 : sameField (bytes "participants") "participants" = true := by decide
  cases v with
  | mk name date pres score parts =>
    simp only [Workshop.zero] at hi hs ⊢
    simp only [unmarshal, setFields, setField, k11, k21, k22, k31, k32, k33, k41, k42, k43, k44,
      k51, k52, k53, k54, k55, storeString, hi, hs, if_true, Bool.false_eq_true, if_false,
      Workshop.coerced]

theorem length_encodeTail (t : List (List Nat)) : t.length ≤ (encodeTail t).length := by
  induction t with
  | nil => simp [encodeTail]
  | cons s t ih => simp [encodeTail]; omega

theorem length_encodeSlice (ps : Option (List (List Nat))) :
    (ps.getD []).length ≤ (encodeSlice ps).length := by
  match ps with
  | none => simp [encodeSlice]
  | some [] => simp [encodeSlice]
  | some (s :: t) =>
    have := length_encodeTail t
    simp [encodeSlice]
    omega

theorem length_marshal (v : Workshop) :
    (v.Participants.getD []).length + 8 ≤ (marshal v).length := by
  have := length_encodeSlice v.Participants
  simp [marshal, encodeKey]
  omega

/-- The decoder reads back what the encoder wrote, whatever follows it: the record with
the invalid bytes of its strings replaced. -/
theorem Decode_marshal (v : Workshop) (h1 : 1 ≤ v.SweaterScore) (h2 : v.SweaterScore ≤ 10)
    (rest : List Nat) :
    Decode (marshal v ++ rest) Workshop.zero = Except.ok v.coerced := by
  have hl := length_marshal v
  obtain ⟨pv, hp, hs⟩ := parseValue_marshal v h1 h2 ((marshal v ++ rest).length + 1) rest
    (by simp; omega)
  have hu := unmarshal_members v pv h1 h2 hs
  have h0 : skipSpace (marshal v ++ rest) = marshal v ++ rest := by
    have : isSpace lbrace = false := by decide
    simp [marshal, skipSpace, this]
  have hne : ∃ c cs, marshal v ++ rest = c :: cs := ⟨lbrace, _, by simp [marshal]; rfl⟩
  obtain ⟨c, cs, hc⟩ := hne
  unfold Decode
  simp only [h0]
  rw [hc] at hp ⊢
  simp only [hp, hu]

end json

theorem map_replaceInvalid_valid (l : List (List Nat)) (h : l.all utf8.Valid = true) :
    l.map (replaceInvalid 0) = l := by
  induction l with
  | nil => rfl
  | cons s t ih =>
    simp only [List.all_cons, Bool.and_eq_true] at h
    simp only [List.map_cons, replaceInvalid_valid s h.1, ih h.2]

/-- A record whose strings are valid UTF-8 is not changed by `coerced`. -/
theorem Workshop.coerced_valid (v : Workshop) (h : v.validUTF8 = true) : v.coerced = v := by
  cases v with
  | mk name date pres score parts =>
    simp only [Workshop.validUTF8, Bool.and_eq_true] at h
    obtain ⟨⟨⟨hn, hd⟩, hp⟩, hl⟩ := h
    simp only [Workshop.coerced, replaceInvalid_valid _ hn, replaceInvalid_valid _ hd,
      replaceInvalid_valid _ hp]
    cases parts with
    | none => rfl
    | some l =>
      simp only [Option.getD_some] at hl
      simp only [Option.map_some', map_replaceInvalid_valid l hl]

theorem Workshop.coerced_SweaterScore (v : Workshop) :
    v.coerced.SweaterScore = v.SweaterScore := rfl

theorem all_Valid_map (l : List (List Nat)) :
    (l.map (replaceInvalid 0)).all utf8.Valid = true := by
  induction l with
  | nil => rfl
  | cons s t ih => simp only [List.map_cons, List.all_cons, Valid_replaceInvalid, ih, Bool.and_self]

/-- The strings of a `coerced` record are valid UTF-8. -/
theorem Workshop.validUTF8_coerced (v : Workshop) : v.coerced.validUTF8 = true := by
  cases v with
  | mk name date pres score parts =>
    cases parts with
    | none => simp [Workshop.validUTF8, Workshop.coerced, Valid_replaceInvalid]
    | some l =>
      simp only [Workshop.validUTF8, Workshop.coerced, Valid_replaceInvalid, Option.map_some',
        Option.getD_some, all_Valid_map, Bool.and_self]

namespace utf8

theorem EncodeRune_not_scalar (r : Nat) (h : isScalar r = false) :
    EncodeRune r = EncodeRune 0xFFFD := by
  have h1 : ¬ (r < 0xD800 ∨ (0xE000 ≤ r ∧ r ≤ 0x10FFFF)) := by
    rw [← isScalar_iff]; simp [h]
  have a : ¬ r < 0x80 := by omega
  have b : ¬ r < 0x800 := by omega
  have c : (0xD800 ≤ r ∧ r < 0xE000) ∨ 0x10FFFF < r := by omega
  simp only [EncodeRune, a, b, c, if_false, if_true]
  rfl

theorem validFrom_EncodeRune_any (r : Nat) (t : List Nat) :
    validFrom 0 (EncodeRune r ++ t) = validFrom 0 t := by
  cases h : isScalar r with
  | true => exact validFrom_EncodeRune r h t
  | false =>
    rw [EncodeRune_not_scalar r h]
    exact validFrom_EncodeRune _ (by decide) t

end utf8

namespace json

theorem push_eq_some {bs : List Nat} {o : Option (List Nat × List Nat)} {s r : List Nat}
    (h : push bs o = some (s, r)) : ∃ s1, o = some (s1, r) ∧ s = bs ++ s1 := by
  cases o with
  | none => simp [push] at h
  | some p =>
    obtain ⟨s1, r1⟩ := p
    simp only [push, Option.some.injEq, Prod.mk.injEq] at h
    exact ⟨s1, by rw [h.2], h.1.symm⟩

/-- Every string the scanner returns is valid UTF-8. -/
theorem scanString_valid (cs : List Nat) :
    ∀ (n : Nat) (s r : List Nat), scanString n cs = some (s, r) → utf8.Valid s = true := by
  induction cs with
  | nil => intro n s r h; cases n <;> simp [scanString] at h
  | cons c cs ih =>
    intro n s r h
    cases n with
    | succ k =>
      simp only [scanString] at h
      exact ih k s r h
    | zero =>
      simp only [scanString] at h
      split_ifs at h with h1 h2 h3 h4
      · simp only [Option.some.injEq, Prod.mk.injEq] at h
        rw [← h.1]; rfl
      · cases he : escapeAt cs with
        | none => simp [he] at h
        | some p =>
          obtain ⟨ru, k⟩ := p
          simp only [he] at h
          obtain ⟨s1, hs1, rfl⟩ := push_eq_some h
          unfold utf8.Valid
          rw [utf8.validFrom_EncodeRune_any]
          exact ih k s1 r hs1
      · obtain ⟨s1, hs1, rfl⟩ := push_eq_some h
        have := ih 0 s1 r hs1
        unfold utf8.Valid at this ⊢
        simp [utf8.validFrom, h4, this]
      · obtain ⟨s1, hs1, rfl⟩ := push_eq_some h
        unfold utf8.Valid
        rw [utf8.validFrom_EncodeRune_any]
        exact ih _ s1 r hs1

theorem parseValue_validString (f d : Nat) (cs : List Nat) (v : Value) (r : List Nat)
    (h : parseValue f d cs = some (v, r)) : v.validString = true := by
  cases f with
  | zero => simp [parseValue] at h
  | succ f =>
    rw [parseValue] at h
    split at h
    · simp at h
    · split_ifs at h
      all_goals (repeat' split at h)
      all_goals (try simp at h)
      all_goals (try (obtain ⟨rfl, rfl⟩ := h))
      all_goals (first | rfl | exact scanString_valid _ 0 _ _ (by assumption))

theorem parseElements_validString (f : Nat) :
    ∀ (d : Nat) (cs : List Nat) (es : List Value) (r : List Nat),
      parseElements f d cs = some (es, r) → es.all Value.validString = true := by
  induction f with
  | zero => intro d cs es r h; simp [parseElements] at h
  | succ f ih =>
    intro d cs es r h
    rw [parseElements] at h
    split at h
    · simp at h
    · rename_i v r1 hv
      have hv1 := parseValue_validString f d cs v r1 hv
      split at h
      · simp at h
      · split_ifs at h
        · split at h
          · rename_i vs r2 hvs
            simp only [Option.some.injEq, Prod.mk.injEq] at h
            obtain ⟨rfl, rfl⟩ := h
            simp only [List.all_cons, hv1, ih d _ vs _ hvs, Bool.and_self]
          · simp at h
        · simp only [Option.some.injEq, Prod.mk.injEq] at h
          obtain ⟨rfl, rfl⟩ := h
          simp only [List.all_cons, hv1, List.all_nil, Bool.and_self]

theorem parseValue_validStrings (f d : Nat) (cs : List Nat) (v : Value) (r : List Nat)
    (h : parseValue f d cs = some (v, r)) : v.validStrings = true := by
  cases f with
  | zero => simp [parseValue] at h
  | succ f =>
    rw [parseValue] at h
    split at h
    · simp at h
    · split_ifs at h
      all_goals (repeat' split at h)
      all_goals (try simp at h)
      all_goals (try (obtain ⟨rfl, rfl⟩ := h))
      all_goals (first
        | rfl
        | exact scanString_valid _ 0 _ _ (by assumption)
        | exact parseElements_validString _ _ _ _ _ (by assumption))

theorem parseMembers_validStrings (f : Nat) :
    ∀ (d : Nat) (cs : List Nat) (ms : List (List Nat × Value)) (r : List Nat),
      parseMembers f d cs = some (ms, r) → ∀ p ∈ ms, p.2.validStrings = true := by
  induction f with
  | zero => intro d cs ms r h; simp [parseMembers] at h
  | succ f ih =>
    intro d cs ms r h
    rw [parseMembers] at h
    split at h
    · simp at h
    · split_ifs at h
      split at h
      · simp at h
      · split at h
        · simp at h
        · split_ifs at h
          split at h
          · simp at h
          · rename_i v r3 hv
            have hv1 := parseValue_validStrings f d _ v r3 hv
            split at h
            · simp at h
            · split_ifs at h
              · split at h
                · rename_i ms1 r5 hms
                  simp only [Option.some.injEq, Prod.mk.injEq] at h
                  obtain ⟨rfl, rfl⟩ := h
                  intro p hp
                  rcases List.mem_cons.1 hp with rfl | hp1
                  · exact hv1
                  · exact ih d _ ms1 _ hms p hp1
                · simp at h
              · simp only [Option.some.injEq, Prod.mk.injEq] at h
                obtain ⟨rfl, rfl⟩ := h
                intro p hp
                rcases List.mem_cons.1 hp with rfl | hp1
                · exact hv1
                · simp at hp1

theorem parseValue_object_valid (f d : Nat) (cs : List Nat) (ms : List (List Nat × Value))
    (r : List Nat) (h : parseValue f d cs = some (Value.object ms, r)) :
    ∀ p ∈ ms, p.2.validStrings = true := by
  cases f with
  | zero => simp [parseValue] at h
  | succ f =>
    rw [parseValue] at h
    split at h
    · simp at h
    · split_ifs at h
      all_goals (repeat' split at h)
      all_goals (try simp at h)
      all_goals (try (obtain ⟨rfl, rfl⟩ := h))
      all_goals (first
        | (intro p hp; simp at hp)
        | exact parseMembers_validStrings _ _ _ _ _ (by assumption))

theorem storeString_valid {old s : List Nat} {v : Value} (h : storeString old v = some s)
    (ho : utf8.Valid old = true) (hv : v.validString = true) : utf8.Valid s = true := by
  cases v with
  | null => simp only [storeString, Option.some.injEq] at h; rw [← h]; exact ho
  | string t => simp only [storeString, Option.some.injEq] at h; rw [← h]; exact hv
  | bool b => simp [storeString] at h
  | number l => simp [storeString] at h
  | array es => simp [storeString] at h
  | object ms => simp [storeString] at h

theorem storeStrings_valid (es : List Value) :
    ∀ (old ss : List (List Nat)), storeStrings es old = some ss →
      old.all utf8.Valid = true → es.all Value.validString = true →
      ss.all utf8.Valid = true := by
  induction es with
  | nil =>
    intro old ss h _ _
    simp only [storeStrings, Option.some.injEq] at h
    rw [← h]; rfl
  | cons v vs ih =>
    intro old ss h ho hv
    simp only [List.all_cons, Bool.and_eq_true] at hv
    have hh : utf8.Valid (old.headD []) = true := by
      cases old with
      | nil => rfl
      | cons a t =>
        simp only [List.all_cons, Bool.and_eq_true] at ho
        exact ho.1
    have ht : old.tail.all utf8.Valid = true := by
      cases old with
      | nil => rfl
      | cons a t =>
        simp only [List.all_cons, Bool.and_eq_true] at ho
        exact ho.2
    rw [storeStrings] at h
    split at h
    · rename_i s ss1 h1 h2
      simp only [Option.some.injEq] at h
      rw [← h]
      simp only [List.all_cons, storeString_valid h1 hh hv.1, ih _ _ h2 ht hv.2, Bool.and_self]
    · simp at h

theorem all_Valid_drop (l : List (List Nat)) (n : Nat) (h : l.all utf8.Valid = true) :
    (l.drop n).all utf8.Valid = true := by
  rw [List.all_eq_true] at h ⊢
  intro x hx
  exact h x (List.mem_of_mem_drop hx)

theorem all_Valid_append {l1 l2 : List (List Nat)} (h1 : l1.all utf8.Valid = true)
    (h2 : l2.all utf8.Valid = true) : (l1 ++ l2).all utf8.Valid = true := by
  rw [List.all_append, h1, h2]
  rfl

theorem storeSlice_valid {old : Option (List (List Nat))} {spare : List (List Nat)}
    {ps : Option (List (List Nat)) × List (List Nat)} {v : Value}
    (h : storeSlice old spare v = some ps) (ho : (old.getD []).all utf8.Valid = true)
    (hsp : spare.all utf8.Valid = true) (hv : v.validStrings = true) :
    (ps.1.getD []).all utf8.Valid = true ∧ ps.2.all utf8.Valid = true := by
  cases v with
  | null =>
    simp only [storeSlice, Option.some.injEq] at h
    rw [← h]
    exact ⟨rfl, rfl⟩
  | array es =>
    cases es with
    | nil =>
      simp only [storeSlice, Option.some.injEq] at h
      rw [← h]
      exact ⟨rfl, rfl⟩
    | cons e es =>
      simp only [storeSlice] at h
      split at h
      · rename_i ss hss
        simp only [Option.some.injEq] at h
        rw [← h]
        exact ⟨storeStrings_valid (e :: es) _ ss hss (all_Valid_append ho hsp) hv,
          all_Valid_drop _ _ (all_Valid_append ho hsp)⟩
      · simp at h
  | bool b => simp [storeSlice] at h
  | number l => simp [storeSlice] at h
  | string s => simp [storeSlice] at h
  | object ms => simp [storeSlice] at h

theorem validString_of_validStrings {v : Value} (h : v.validStrings = true) :
    v.validString = true := by
  cases v <;> first | rfl | exact h

theorem setField_valid {w w1 : Workshop × List (List Nat)} {key : List Nat} {v : Value}
    (h : setField w key v = some w1) (hw : w.1.validUTF8 = true)
    (hs : w.2.all utf8.Valid = true) (hv : v.validStrings = true) :
    w1.1.validUTF8 = true ∧ w1.2.all utf8.Valid = true := by
  have hv1 := validString_of_validStrings hv
  have hw0 := hw
  simp only [Workshop.validUTF8, Bool.and_eq_true] at hw
  obtain ⟨⟨⟨hn, hd⟩, hp⟩, hl⟩ := hw
  unfold setField at h
  split_ifs at h
  · split at h
    · rename_i s hs1
      simp only [Option.some.injEq] at h
      rw [← h]
      refine ⟨?_, hs⟩
      simp only [Workshop.validUTF8, storeString_valid hs1 hn hv1, hd, hp, hl, Bool.and_self]
    · simp at h
  · split at h
    · rename_i s hs1
      simp only [Option.some.injEq] at h
      rw [← h]
      refine ⟨?_, hs⟩
      simp only [Workshop.validUTF8, storeString_valid hs1 hd hv1, hn, hp, hl, Bool.and_self]
    · simp at h
  · split at h
    · rename_i s hs1
      simp only [Option.some.injEq] at h
      rw [← h]
      refine ⟨?_, hs⟩
      simp only [Workshop.validUTF8, storeString_valid hs1 hp hv1, hn, hd, hl, Bool.and_self]
    · simp at h
  · split at h
    · simp only [Option.some.injEq] at h
      rw [← h]
      refine ⟨?_, hs⟩
      simp only [Workshop.validUTF8, hn, hd, hp, hl, Bool.and_self]
    · simp at h
  · split at h
    · rename_i ps hps
      simp only [Option.some.injEq] at h
      rw [← h]
      obtain ⟨q1, q2⟩ := storeSlice_valid hps hl hs hv
      refine ⟨?_, q2⟩
      simp only [Workshop.validUTF8, q1, hn, hd, hp, Bool.and_self]
    · simp at h
  · simp only [Option.some.injEq] at h
    rw [← h]
    exact ⟨hw0, hs⟩

theorem setFields_valid (ms : List (List Nat × Value)) :
    ∀ (w w1 : Workshop × List (List Nat)), setFields ms w = some w1 →
      w.1.validUTF8 = true → w.2.all utf8.Valid = true →
      (∀ p ∈ ms, p.2.validStrings = true) → w1.1.validUTF8 = true := by
  induction ms with
  | nil =>
    intro w w1 h hw _ _
    simp only [setFields, Option.some.injEq] at h
    rw [← h]; exact hw
  | cons p ms ih =>
    intro w w1 h hw hs hv
    obtain ⟨k, v⟩ := p
    simp only [setFields] at h
    split at h
    · rename_i w2 h2
      obtain ⟨q1, q2⟩ := setField_valid h2 hw hs (hv (k, v) (List.mem_cons_self _ _))
      exact ih w2 w1 h q1 q2 (fun q hq => hv q (List.mem_cons_of_mem _ hq))
    · simp at h

/-- What `Decode` stores into a record of valid UTF-8 strings is a record of valid UTF-8
strings. -/
theorem Decode_valid {body : List Nat} {into w : Workshop}
    (h : Decode body into = Except.ok w) (hi : into.validUTF8 = true) :
    w.validUTF8 = true := by
  unfold Decode at h
  split at h
  · simp at h
  · split at h
    · simp at h
    · rename_i v r hv
      split at h
      · simp at h
      · rename_i w2 hu
        simp only [Except.ok.injEq] at h
        subst h
        cases v with
        | null =>
          simp only [unmarshal, Option.some.injEq] at hu
          rw [← hu]; exact hi
        | object ms =>
          simp only [unmarshal] at hu
          split at hu
          · rename_i w3 h3
            simp only [Option.some.injEq] at hu
            rw [← hu]
            exact setFields_valid ms (into, []) w3 h3 hi rfl
              (parseValue_object_valid _ _ _ ms r hv)
          · simp at hu
        | bool b => simp [unmarshal] at hu
        | number l => simp [unmarshal] at hu
        | string s => simp [unmarshal] at hu
        | array es => simp [unmarshal] at hu

end json

/-! ## workshop.go: the claims on the handlers -/

theorem Outcome.andThen_returned {α : Type} (o : Outcome α) :
    o.andThen Outcome.returned = o := by
  cases o <;> rfl

/-- C1: when the body of a POST decodes to a Workshop whose SweaterScore is below 1 or
above 10, `postWorkshopHandler` answers on a fresh recorder, without a panic, with
status 400 and the body `SweaterScore must be between 1 and 10`, and the variable
`workshop` keeps its value. -/
theorem postWorkshopHandler_out_of_range (r : http.Request) (ws v : Workshop)
    (hd : json.Decode r.Body Workshop.zero = Except.ok v)
    (hv : v.SweaterScore < 1 ∨ v.SweaterScore > 10) :
    (postWorkshopHandler httptest.NewRecorder r ws).1.panics = false ∧
    (postWorkshopHandler httptest.NewRecorder r ws).1.state.Code = 400 ∧
    (postWorkshopHandler httptest.NewRecorder r ws).1.state.Body =
      bytes "SweaterScore must be between 1 and 10" ∧
    (postWorkshopHandler httptest.NewRecorder r ws).2 = ws := by
  simp only [postWorkshopHandler, hd, hv, if_true]
  and_intros <;> first | rfl | trivial

/-- Witness of C1: the bodies of the two tests, score 0 and score 11. -/
theorem postWorkshopHandler_out_of_range_witness :
    (json.Decode (json.Marshal scoreTooLow) Workshop.zero = Except.ok scoreTooLow ∧
      (postWorkshopHandler httptest.NewRecorder
        { Method := "POST", Body := json.Marshal scoreTooLow } validData).1.panics = false ∧
      (postWorkshopHandler httptest.NewRecorder
        { Method := "POST", Body := json.Marshal scoreTooLow } validData).1.state.Code = 400 ∧
      (postWorkshopHandler httptest.NewRecorder
        { Method := "POST", Body := json.Marshal scoreTooLow } validData).1.state.Body =
          bytes "SweaterScore must be between 1 and 10" ∧
      (postWorkshopHandler httptest.NewRecorder
        { Method := "POST", Body := json.Marshal scoreTooLow } validData).2 = validData) ∧
    (json.Decode (json.Marshal scoreTooHigh) Workshop.zero = Except.ok scoreTooHigh ∧
      (postWorkshopHandler httptest.NewRecorder
        { Method := "POST", Body := json.Marshal scoreTooHigh } validData).1.state.Code = 400) :=
  ⟨⟨rfl, postWorkshopHandler_out_of_range
      { Method := "POST", Body := json.Marshal scoreTooLow } validData scoreTooLow rfl
      (Or.inl (by decide))⟩,
   ⟨rfl, (postWorkshopHandler_out_of_range
      { Method := "POST", Body := json.Marshal scoreTooHigh } validData scoreTooHigh rfl
      (Or.inr (by decide))).2.1⟩⟩

/-- C2: for a method other than GET and POST, `WorkshopHandler` answers on a fresh
recorder, without a panic, with status 405 and the body `Method not allowed`, leaves
the variable `workshop` alone, and on any writer its whole effect is the two calls of
the default branch, whatever the body and the random draw: neither sub-handler runs. -/
theorem WorkshopHandler_method_not_allowed (r : http.Request) (raw : Nat) (ws : Workshop)
    (hg : r.Method ≠ "GET") (hp : r.Method ≠ "POST") :
    (WorkshopHandler httptest.NewRecorder r raw ws).1.panics = false ∧
    (WorkshopHandler httptest.NewRecorder r raw ws).1.state.Code = 405 ∧
    (WorkshopHandler httptest.NewRecorder r raw ws).1.state.Body = bytes "Method not allowed" ∧
    (WorkshopHandler httptest.NewRecorder r raw ws).2 = ws ∧
    (∀ (W : Type) [http.ResponseWriter W] (w : W),
      WorkshopHandler w r raw ws =
        (http.perform
          [http.Call.WriteHeader 405, http.Call.Write (bytes "Method not allowed")] w, ws)) := by
  simp only [WorkshopHandler, hg, hp, if_false]
  refine ⟨rfl, rfl, rfl, trivial, ?_⟩
  intro W _ w
  simp only [http.perform, http.Call.perform, Outcome.andThen_returned]
  rfl

/-- Witness of C2: the three methods of the test. -/
theorem WorkshopHandler_method_not_allowed_witness :
    (WorkshopHandler httptest.NewRecorder { Method := "PUT", Body := [] } 3
      validData).1.state.Code = 405 ∧
    (WorkshopHandler httptest.NewRecorder { Method := "DELETE", Body := [] } 3
      validData).1.state.Body = bytes "Method not allowed" ∧
    (WorkshopHandler httptest.NewRecorder { Method := "PATCH", Body := [] } 3 validData).2
        = validData :=
  ⟨(WorkshopHandler_method_not_allowed { Method := "PUT", Body := [] } 3 validData
      (by decide) (by decide)).2.1,
   (WorkshopHandler_method_not_allowed { Method := "DELETE", Body := [] } 3 validData
      (by decide) (by decide)).2.2.1,
   (WorkshopHandler_method_not_allowed { Method := "PATCH", Body := [] } 3 validData
      (by decide) (by decide)).2.2.2.1⟩

/-- C3, as stated, fails: the body `trailingBody` is not well-formed JSON, yet
`postWorkshopHandler` answers 200, not with the text `Invalid JSON data`, and stores
the decoded record. -/
theorem postWorkshopHandler_trailing_bytes :
    json.Valid trailingBody = false ∧
    (postWorkshopHandler httptest.NewRecorder { Method := "POST", Body := trailingBody }
      validData).1.state.Code = 200 ∧
    (postWorkshopHandler httptest.NewRecorder { Method := "POST", Body := trailingBody }
      validData).1.state.Body ≠ bytes "Invalid JSON data" ∧
    (postWorkshopHandler httptest.NewRecorder { Method := "POST", Body := trailingBody }
      validData).2 = { Workshop.zero with SweaterScore := 5 } := by
  refine ⟨by decide, by decide, by decide, by decide⟩

/-- C3, amended: when `Decode` reports an error on the body of a POST (no JSON value,
a first value that is not well-formed, or one that does not fit `Workshop`),
`postWorkshopHandler` answers on a fresh recorder, without a panic, with status 400 and
the body `Invalid JSON data`, and the variable `workshop` keeps its value. -/
theorem postWorkshopHandler_decode_error (r : http.Request) (ws : Workshop)
    (e : json.DecodeError) (hd : json.Decode r.Body Workshop.zero = Except.error e) :
    (postWorkshopHandler httptest.NewRecorder r ws).1.panics = false ∧
    (postWorkshopHandler httptest.NewRecorder r ws).1.state.Code = 400 ∧
    (postWorkshopHandler httptest.NewRecorder r ws).1.state.Body = bytes "Invalid JSON data" ∧
    (postWorkshopHandler httptest.NewRecorder r ws).2 = ws := by
  simp only [postWorkshopHandler, hd]
  and_intros <;> first | rfl | trivial

/-- Witness of the amended C3: the body of the test, `invalid json`. -/
theorem postWorkshopHandler_decode_error_witness :
    json.Decode (bytes "invalid json") Workshop.zero =
      Except.error json.DecodeError.malformed ∧
    (postWorkshopHandler httptest.NewRecorder
      { Method := "POST", Body := bytes "invalid json" } validData).1.panics = false ∧
    (postWorkshopHandler httptest.NewRecorder
      { Method := "POST", Body := bytes "invalid json" } validData).1.state.Code = 400 ∧
    (postWorkshopHandler httptest.NewRecorder
      { Method := "POST", Body := bytes "invalid json" } validData).1.state.Body =
        bytes "Invalid JSON data" ∧
    (postWorkshopHandler httptest.NewRecorder
      { Method := "POST", Body := bytes "invalid json" } validData).2 = validData :=
  ⟨rfl, postWorkshopHandler_decode_error { Method := "POST", Body := bytes "invalid json" }
    validData json.DecodeError.malformed rfl⟩

/-- C4, as stated, fails: the record `invalidName` has SweaterScore 5 and a `Name` that
is the single byte 0xff. Posting its JSON encoding is answered with 200, but the record
stored and the record the response body decodes to have the three bytes of U+FFFD as
`Name`, not the byte submitted. -/
theorem postWorkshopHandler_invalid_utf8 :
    (1 ≤ invalidName.SweaterScore ∧ invalidName.SweaterScore ≤ 10) ∧
    (postWorkshopHandler httptest.NewRecorder
      { Method := "POST", Body := json.Marshal invalidName } validData).1.state.Code = 200 ∧
    (postWorkshopHandler httptest.NewRecorder
      { Method := "POST", Body := json.Marshal invalidName } validData).2 ≠ invalidName ∧
    (postWorkshopHandler httptest.NewRecorder
      { Method := "POST", Body := json.Marshal invalidName } validData).2 =
        { invalidName with Name := [0xEF, 0xBF, 0xBD] } ∧
    json.Decode (postWorkshopHandler httptest.NewRecorder
      { Method := "POST", Body := json.Marshal invalidName } validData).1.state.Body
        Workshop.zero = Except.ok { invalidName with Name := [0xEF, 0xBF, 0xBD] } ∧
    json.Decode (postWorkshopHandler httptest.NewRecorder
      { Method := "POST", Body := json.Marshal invalidName } validData).1.state.Body
        Workshop.zero ≠ Except.ok invalidName := by
  have hd : json.Decode (postWorkshopHandler httptest.NewRecorder
      { Method := "POST", Body := json.Marshal invalidName } validData).1.state.Body
        Workshop.zero = Except.ok { invalidName with Name := [0xEF, 0xBF, 0xBD] } := rfl
  refine ⟨by decide, by decide, by decide, by decide, hd, ?_⟩
  rw [hd]
  intro h
  exact absurd (Except.ok.inj h) (by decide)

/-- C4, amended: for a Workshop `v` with `1 ≤ v.SweaterScore ≤ 10` whose strings (Name,
Date, Presentator and every participant) are valid UTF-8, a request whose body is the
JSON encoding of `v` makes `postWorkshopHandler` answer on a fresh recorder, without a
panic, with status 200 and Content-Type `application/json` (set before the header is
written), store `v` in the variable `workshop`, and write a body that decodes back to
`v`. -/
theorem postWorkshopHandler_valid (method : String) (v ws : Workshop)
    (h1 : 1 ≤ v.SweaterScore) (h2 : v.SweaterScore ≤ 10) (hu : v.validUTF8 = true) :
    (postWorkshopHandler httptest.NewRecorder { Method := method, Body := json.Marshal v }
      ws).1.panics = false ∧
    (postWorkshopHandler httptest.NewRecorder { Method := method, Body := json.Marshal v }
      ws).1.state.Code = 200 ∧
    (postWorkshopHandler httptest.NewRecorder { Method := method, Body := json.Marshal v }
      ws).1.state.HeaderMap.Get "Content-Type" = "application/json" ∧
    (postWorkshopHandler httptest.NewRecorder { Method := method, Body := json.Marshal v }
      ws).1.state.snapHeader.Get "Content-Type" = "application/json" ∧
    (postWorkshopHandler httptest.NewRecorder { Method := method, Body := json.Marshal v }
      ws).2 = v ∧
    json.Decode (postWorkshopHandler httptest.NewRecorder
      { Method := method, Body := json.Marshal v } ws).1.state.Body Workshop.zero =
        Except.ok v := by
  have hd : json.Decode (json.Marshal v) Workshop.zero = Except.ok v := by
    have := json.Decode_marshal v h1 h2 []
    rw [Workshop.coerced_valid v hu] at this
    simpa [json.Marshal] using this
  have hb : json.Decode (json.marshal v ++ [10]) Workshop.zero = Except.ok v := by
    have := json.Decode_marshal v h1 h2 [10]
    rw [Workshop.coerced_valid v hu] at this
    exact this
  have hr : ¬(v.SweaterScore < 1 ∨ v.SweaterScore > 10) := by omega
  simp only [postWorkshopHandler, hd, hr, if_false]
  and_intros <;> first | rfl | trivial

/-- Witness of the amended C4: the record of `TestPostWorkshopHandler_ValidData`. -/
theorem postWorkshopHandler_valid_witness :
    validData.validUTF8 = true ∧
    (postWorkshopHandler httptest.NewRecorder
      { Method := "POST", Body := json.Marshal validData } scoreTooLow).1.state.Code = 200 ∧
    (postWorkshopHandler httptest.NewRecorder
      { Method := "POST", Body := json.Marshal validData } scoreTooLow).2 = validData ∧
    json.Decode (postWorkshopHandler httptest.NewRecorder
      { Method := "POST", Body := json.Marshal validData } scoreTooLow).1.state.Body
        Workshop.zero = Except.ok validData :=
  ⟨by decide,
   (postWorkshopHandler_valid "POST" validData scoreTooLow (by decide) (by decide)
      (by decide)).2.1,
   (postWorkshopHandler_valid "POST" validData scoreTooLow (by decide) (by decide)
      (by decide)).2.2.2.2.1,
   (postWorkshopHandler_valid "POST" validData scoreTooLow (by decide) (by decide)
      (by decide)).2.2.2.2.2⟩

/-! ## getDefaultSweaterScore -/

theorem digitsValue_eq (ds : List Nat) :
    ∀ acc : Nat, strconv.digitsValue ds acc = acc * 10 ^ ds.length + decimalValue ds := by
  induction ds with
  | nil => intro acc; simp [strconv.digitsValue, decimalValue]
  | cons c cs ih =>
    intro acc
    simp only [strconv.digitsValue, decimalValue, ih, List.length_cons, pow_succ]
    ring

theorem all_isDigit {ds : List Nat} (hd : ∀ c ∈ ds, strconv.isDigit c = true) :
    ds.all strconv.isDigit = true := by
  simpa [List.all_eq_true] using hd

theorem ParseInt_unsigned (c : Nat) (cs : List Nat) (h1 : c ≠ 45) (h2 : c ≠ 43)
    (hd : ∀ d ∈ c :: cs, strconv.isDigit d = true) :
    strconv.ParseInt (c :: cs) =
      if (decimalValue (c :: cs) : Int) ≤ (2 : Int) ^ 63 - 1 then
        some (decimalValue (c :: cs) : Int) else none := by
  have hall := all_isDigit hd
  have hnn : -(2 : Int) ^ 63 ≤ (decimalValue (c :: cs) : Int) := by
    have : (0 : Int) ≤ (decimalValue (c :: cs) : Int) := Int.ofNat_nonneg _
    have h63 : (0 : Int) ≤ (2 : Int) ^ 63 := by norm_num
    omega
  simp only [strconv.ParseInt, h1, h2, or_self, if_false, hall, if_true, digitsValue_eq,
    zero_mul, zero_add, hnn, true_and]
  simp

theorem ParseInt_plus (ds : List Nat) (hne : ds ≠ [])
    (hd : ∀ d ∈ ds, strconv.isDigit d = true) :
    strconv.ParseInt (43 :: ds) =
      if (decimalValue ds : Int) ≤ (2 : Int) ^ 63 - 1 then
        some (decimalValue ds : Int) else none := by
  have hall := all_isDigit hd
  have hnn : -(2 : Int) ^ 63 ≤ (decimalValue ds : Int) := by
    have : (0 : Int) ≤ (decimalValue ds : Int) := Int.ofNat_nonneg _
    have h63 : (0 : Int) ≤ (2 : Int) ^ 63 := by norm_num
    omega
  have hp : (43 : Nat) ≠ 45 := by decide
  simp only [strconv.ParseInt, hp, or_true, false_or, if_true, if_false, hne, hall,
    digitsValue_eq, zero_mul, zero_add, hnn, true_and]

theorem ParseInt_minus (ds : List Nat) (hne : ds ≠ [])
    (hd : ∀ d ∈ ds, strconv.isDigit d = true) :
    strconv.ParseInt (45 :: ds) =
      if -(2 : Int) ^ 63 ≤ -(decimalValue ds : Int) then
        some (-(decimalValue ds : Int)) else none := by
  have hall := all_isDigit hd
  have hnn : -(decimalValue ds : Int) ≤ (2 : Int) ^ 63 - 1 := by
    have : (0 : Int) ≤ (decimalValue ds : Int) := Int.ofNat_nonneg _
    have h63 : (1 : Int) ≤ (2 : Int) ^ 63 := by norm_num
    omega
  simp only [strconv.ParseInt, true_or, if_true, if_false, hne, hall,
    digitsValue_eq, zero_mul, zero_add, hnn, and_true]

theorem ParsesAsDecimal_of_Atoi (s : List Nat) (n : Int) (h : strconv.Atoi s = some n) :
    ParsesAsDecimal s n := by
  unfold strconv.Atoi at h
  cases s with
  | nil => exact absurd h (by simp [strconv.ParseInt])
  | cons c cs =>
    by_cases hm : c = 45
    · subst hm
      simp only [strconv.ParseInt, true_or, if_true] at h
      by_cases a : cs = []
      · rw [if_pos a] at h; exact absurd h (by simp)
      · rw [if_neg a] at h
        by_cases b : cs.all strconv.isDigit = true
        · rw [if_pos b] at h
          split_ifs at h
          refine ⟨cs, a, fun d hd => List.all_eq_true.mp b d hd, Or.inr (Or.inr ⟨rfl, ?_⟩)⟩
          rw [← Option.some.inj h, digitsValue_eq]; simp
        · rw [if_neg b] at h; exact absurd h (by simp)
    · by_cases hp : c = 43
      · subst hp
        simp only [strconv.ParseInt, or_true, if_true, hm, if_false] at h
        by_cases a : cs = []
        · rw [if_pos a] at h; exact absurd h (by simp)
        · rw [if_neg a] at h
          by_cases b : cs.all strconv.isDigit = true
          · rw [if_pos b] at h
            split_ifs at h
            refine ⟨cs, a, fun d hd => List.all_eq_true.mp b d hd, Or.inr (Or.inl ⟨rfl, ?_⟩)⟩
            rw [← Option.some.inj h, digitsValue_eq]; simp
          · rw [if_neg b] at h; exact absurd h (by simp)
      · simp only [strconv.ParseInt, hm, hp, or_self, if_false] at h
        have a : c :: cs ≠ [] := by simp
        rw [if_neg a] at h
        by_cases b : (c :: cs).all strconv.isDigit = true
        · rw [if_pos b] at h
          split_ifs at h
          refine ⟨c :: cs, a, fun d hd => List.all_eq_true.mp b d hd, Or.inl ⟨rfl, ?_⟩⟩
          rw [← Option.some.inj h, digitsValue_eq]; simp
        · rw [if_neg b] at h; exact absurd h (by simp)

theorem Atoi_of_ParsesAsDecimal (s : List Nat) (n : Int) (h : ParsesAsDecimal s n)
    (h1 : 1 ≤ n) (h2 : n ≤ 10) : strconv.Atoi s = some n := by
  obtain ⟨ds, hne, hd, hc⟩ := h
  have h63 : (10 : Int) ≤ (2 : Int) ^ 63 - 1 := by norm_num
  unfold strconv.Atoi
  rcases hc with ⟨hs, hn⟩ | ⟨hs, hn⟩ | ⟨hs, hn⟩
  · rw [hs]
    cases ds with
    | nil => exact absurd rfl hne
    | cons c cs =>
      have hcd := hd c (List.mem_cons_self c cs)
      have c1 : c ≠ 45 := by rintro rfl; exact absurd hcd (by decide)
      have c2 : c ≠ 43 := by rintro rfl; exact absurd hcd (by decide)
      rw [ParseInt_unsigned c cs c1 c2 hd, ← hn, if_pos (by omega)]
  · rw [hs, ParseInt_plus ds hne hd, ← hn, if_pos (by omega)]
  · have : (0 : Int) ≤ (decimalValue ds : Int) := Int.ofNat_nonneg _
    omega

theorem getDefaultSweaterScore_bounds (env : os.Environ) :
    1 ≤ getDefaultSweaterScore env ∧ getDefaultSweaterScore env ≤ 10 := by
  simp only [getDefaultSweaterScore]
  split_ifs with hne
  · cases strconv.Atoi (os.Getenv env "DEFAULT_SWEATER_SCORE") with
    | none => simp
    | some score =>
      simp only
      split_ifs with hr
      · exact ⟨hr.1, hr.2⟩
      · simp
  · simp

/-- C5: `getDefaultSweaterScore` returns `n` when the value of DEFAULT_SWEATER_SCORE is
non-empty and is a decimal integer numeral for `n` with `1 ≤ n ≤ 10`, it returns 10 in
every other case (unset or empty, not a numeral, below 1, above 10), and its result is
always between 1 and 10. -/
theorem getDefaultSweaterScore_spec (env : os.Environ) :
    (∀ n : Int, os.Getenv env "DEFAULT_SWEATER_SCORE" ≠ [] →
      ParsesAsDecimal (os.Getenv env "DEFAULT_SWEATER_SCORE") n → 1 ≤ n → n ≤ 10 →
      getDefaultSweaterScore env = n) ∧
    ((¬ ∃ n : Int, os.Getenv env "DEFAULT_SWEATER_SCORE" ≠ [] ∧
        ParsesAsDecimal (os.Getenv env "DEFAULT_SWEATER_SCORE") n ∧ 1 ≤ n ∧ n ≤ 10) →
      getDefaultSweaterScore env = 10) ∧
    1 ≤ getDefaultSweaterScore env ∧ getDefaultSweaterScore env ≤ 10 := by
  refine ⟨?_, ?_, ?_⟩
  · intro n hne hp h1 h2
    have ha := Atoi_of_ParsesAsDecimal _ n hp h1 h2
    simp only [getDefaultSweaterScore, hne, ne_eq, not_false_eq_true, if_true, ha]
    simp [h1, h2]
  · intro hno
    simp only [getDefaultSweaterScore]
    by_cases hne : os.Getenv env "DEFAULT_SWEATER_SCORE" = []
    · simp [hne]
    · simp only [ne_eq, hne, not_false_eq_true, if_true]
      cases ha : strconv.Atoi (os.Getenv env "DEFAULT_SWEATER_SCORE") with
      | none => rfl
      | some score =>
        simp only
        by_cases hr : score ≥ 1 ∧ score ≤ 10
        · exact absurd ⟨score, hne, ParsesAsDecimal_of_Atoi _ _ ha, hr.1, hr.2⟩ hno
        · simp [hr]
  · exact getDefaultSweaterScore_bounds env

/-- Witness of C5: the five cases of `TestGetDefaultSweaterScore`. -/
theorem getDefaultSweaterScore_spec_witness :
    getDefaultSweaterScore (envWith "7") = 7 ∧
    getDefaultSweaterScore (fun _ => none) = 10 ∧
    getDefaultSweaterScore (envWith "15") = 10 ∧
    getDefaultSweaterScore (envWith "0") = 10 ∧
    getDefaultSweaterScore (envWith "invalid") = 10 :=
  ⟨(getDefaultSweaterScore_spec (envWith "7")).1 7 (by decide)
      ⟨[55], by decide, by decide, Or.inl ⟨rfl, by decide⟩⟩ (by decide) (by decide),
   by decide, by decide, by decide, by decide⟩

/-! ## The stored SweaterScore stays between 1 and 10 -/

theorem Intn_range (raw : Nat) : 1 ≤ rand.Intn 10 raw + 1 ∧ rand.Intn 10 raw + 1 ≤ 10 := by
  unfold rand.Intn
  have h : raw % 10 < 10 := Nat.mod_lt raw (by decide)
  omega

theorem postWorkshopHandler_keeps_range {W : Type} [http.ResponseWriter W] (w : W)
    (r : http.Request) (ws : Workshop)
    (h : 1 ≤ ws.SweaterScore ∧ ws.SweaterScore ≤ 10) :
    1 ≤ (postWorkshopHandler w r ws).2.SweaterScore ∧
      (postWorkshopHandler w r ws).2.SweaterScore ≤ 10 := by
  unfold postWorkshopHandler
  cases json.Decode r.Body Workshop.zero with
  | error e => exact h
  | ok nw =>
    simp only
    split_ifs with hr
    · exact h
    · simp only
      omega

theorem WorkshopHandler_keeps_range {W : Type} [http.ResponseWriter W] (w : W)
    (r : http.Request) (raw : Nat) (ws : Workshop)
    (h : 1 ≤ ws.SweaterScore ∧ ws.SweaterScore ≤ 10) :
    1 ≤ (WorkshopHandler w r raw ws).2.SweaterScore ∧
      (WorkshopHandler w r raw ws).2.SweaterScore ≤ 10 := by
  unfold WorkshopHandler
  split_ifs with hg hp
  · exact Intn_range raw
  · exact postWorkshopHandler_keeps_range w r ws h
  · exact h

theorem postWorkshopHandler_keeps_valid {W : Type} [http.ResponseWriter W] (w : W)
    (r : http.Request) (ws : Workshop) (h : ws.validUTF8 = true) :
    (postWorkshopHandler w r ws).2.validUTF8 = true := by
  unfold postWorkshopHandler
  cases hd : json.Decode r.Body Workshop.zero with
  | error e => exact h
  | ok nw =>
    simp only
    split_ifs with hr
    · exact h
    · exact json.Decode_valid hd rfl

theorem WorkshopHandler_keeps_valid {W : Type} [http.ResponseWriter W] (w : W)
    (r : http.Request) (raw : Nat) (ws : Workshop) (h : ws.validUTF8 = true) :
    (WorkshopHandler w r raw ws).2.validUTF8 = true := by
  unfold WorkshopHandler
  split_ifs with hg hp
  · exact h
  · exact postWorkshopHandler_keeps_valid w r ws h
  · exact h

theorem Stored_validUTF8 (env : os.Environ) (ws : Workshop) (h : Stored env ws) :
    ws.validUTF8 = true := by
  induction h with
  | init => rfl
  | call w r raw ws _ ih => exact WorkshopHandler_keeps_valid w r raw ws ih

theorem getWorkshopHandler_response (r : http.Request) (raw : Nat) (ws : Workshop) :
    (getWorkshopHandler httptest.NewRecorder r raw ws).1.panics = false ∧
    (getWorkshopHandler httptest.NewRecorder r raw ws).1.state.Code = 200 ∧
    (getWorkshopHandler httptest.NewRecorder r raw ws).1.state.HeaderMap.Get "Content-Type" =
      "application/json" ∧
    (getWorkshopHandler httptest.NewRecorder r raw ws).1.state.snapHeader.Get "Content-Type" =
      "application/json" ∧
    ∃ v : Workshop,
      json.Decode (getWorkshopHandler httptest.NewRecorder r raw ws).1.state.Body
        Workshop.zero = Except.ok v ∧
      v = (getWorkshopHandler httptest.NewRecorder r raw ws).2.coerced ∧
      (ws.validUTF8 = true → v = (getWorkshopHandler httptest.NewRecorder r raw ws).2) ∧
      v.SweaterScore = (getWorkshopHandler httptest.NewRecorder r raw ws).2.SweaterScore ∧
      1 ≤ v.SweaterScore ∧ v.SweaterScore ≤ 10 := by
  have hr := Intn_range raw
  refine ⟨rfl, rfl, rfl, rfl,
    ({ ws with SweaterScore := rand.Intn 10 raw + 1 } : Workshop).coerced, ?_, rfl, ?_, rfl,
    hr.1, hr.2⟩
  · exact json.Decode_marshal { ws with SweaterScore := rand.Intn 10 raw + 1 } hr.1 hr.2 [10]
  · intro hv
    exact Workshop.coerced_valid _ hv

/-- C6: the SweaterScore held in the variable `workshop` is between 1 and 10 initially,
every `WorkshopHandler` call keeps it there for every method, body and random draw, so
it is there in every value the variable takes; and every GET answers on a fresh
recorder, without a panic, with status 200, Content-Type `application/json` and a body
that decodes to a record with the stored sweaterScore, which is between 1 and 10; the
decoded record is the stored record whenever the stored strings are valid UTF-8, which
they are in every value the variable takes. -/
theorem SweaterScore_in_range (env : os.Environ) :
    (1 ≤ (workshop env).SweaterScore ∧ (workshop env).SweaterScore ≤ 10) ∧
    (∀ (W : Type) [http.ResponseWriter W] (w : W) (r : http.Request) (raw : Nat)
        (ws : Workshop), 1 ≤ ws.SweaterScore ∧ ws.SweaterScore ≤ 10 →
      1 ≤ (WorkshopHandler w r raw ws).2.SweaterScore ∧
        (WorkshopHandler w r raw ws).2.SweaterScore ≤ 10) ∧
    (∀ ws : Workshop, Stored env ws →
      1 ≤ ws.SweaterScore ∧ ws.SweaterScore ≤ 10 ∧ ws.validUTF8 = true) ∧
    (∀ (r : http.Request) (raw : Nat) (ws : Workshop), r.Method = "GET" →
      (WorkshopHandler httptest.NewRecorder r raw ws).1.panics = false ∧
      (WorkshopHandler httptest.NewRecorder r raw ws).1.state.Code = 200 ∧
      (WorkshopHandler httptest.NewRecorder r raw ws).1.state.HeaderMap.Get "Content-Type" =
        "application/json" ∧
      (WorkshopHandler httptest.NewRecorder r raw ws).1.state.snapHeader.Get "Content-Type" =
        "application/json" ∧
      ∃ v : Workshop,
        json.Decode (WorkshopHandler httptest.NewRecorder r raw ws).1.state.Body
          Workshop.zero = Except.ok v ∧
        v = (WorkshopHandler httptest.NewRecorder r raw ws).2.coerced ∧
        (ws.validUTF8 = true → v = (WorkshopHandler httptest.NewRecorder r raw ws).2) ∧
        v.SweaterScore = (WorkshopHandler httptest.NewRecorder r raw ws).2.SweaterScore ∧
        1 ≤ v.SweaterScore ∧ v.SweaterScore ≤ 10) := by
  have h0 : 1 ≤ (workshop env).SweaterScore ∧ (workshop env).SweaterScore ≤ 10 := by
    exact getDefaultSweaterScore_bounds env
  refine ⟨h0, ?_, ?_, ?_⟩
  · intro W _ w r raw ws h
    exact WorkshopHandler_keeps_range w r raw ws h
  · intro ws hs
    have hv := Stored_validUTF8 env ws hs
    have hb : 1 ≤ ws.SweaterScore ∧ ws.SweaterScore ≤ 10 := by
      induction hs with
      | init => exact h0
      | call w r raw ws hs1 ih =>
        exact WorkshopHandler_keeps_range w r raw ws (ih (Stored_validUTF8 env ws hs1))
    exact ⟨hb.1, hb.2, hv⟩
  · intro r raw ws hg
    have := getWorkshopHandler_response r raw ws
    simpa only [WorkshopHandler, hg, if_true] using this

/-- Witness of C6: a GET, then a POST of an out-of-range record, from the initial value
under `DEFAULT_SWEATER_SCORE=7`. -/
theorem SweaterScore_in_range_witness :
    (1 ≤ (WorkshopHandler httptest.NewRecorder
        { Method := "POST", Body := json.Marshal scoreTooHigh } 0
        (WorkshopHandler httptest.NewRecorder { Method := "GET", Body := [] } 12
          (workshop (envWith "7"))).2).2.SweaterScore ∧
      (WorkshopHandler httptest.NewRecorder
        { Method := "POST", Body := json.Marshal scoreTooHigh } 0
        (WorkshopHandler httptest.NewRecorder { Method := "GET", Body := [] } 12
          (workshop (envWith "7"))).2).2.SweaterScore ≤ 10 ∧
      (WorkshopHandler httptest.NewRecorder
        { Method := "POST", Body := json.Marshal scoreTooHigh } 0
        (WorkshopHandler httptest.NewRecorder { Method := "GET", Body := [] } 12
          (workshop (envWith "7"))).2).2.validUTF8 = true) ∧
    (WorkshopHandler httptest.NewRecorder { Method := "GET", Body := [] } 12
      (workshop (envWith "7"))).2.SweaterScore = 3 :=
  ⟨(SweaterScore_in_range (envWith "7")).2.2.1 _
      (Stored.call httptest.NewRecorder { Method := "POST", Body := json.Marshal scoreTooHigh } 0 _
        (Stored.call httptest.NewRecorder { Method := "GET", Body := [] } 12 _ Stored.init)),
   by decide⟩

/-! ## metrics.go: the wrapper and the middleware -/

/-- The wrapper passes every step through: a run on the wrapper ends the way the same
run on the embedded writer ends, with the embedded writer and the collectors in the
same state. -/
theorem Step_run_responseWriter {W : Type} [http.ResponseWriter W] (steps : List Step) :
    ∀ (rw : responseWriter W) (m : Metrics),
      (Step.run steps (rw, m)).panics = (Step.run steps (rw.ResponseWriter, m)).panics ∧
      (Step.run steps (rw, m)).state.1.ResponseWriter =
        (Step.run steps (rw.ResponseWriter, m)).state.1 ∧
      (Step.run steps (rw, m)).state.2 = (Step.run steps (rw.ResponseWriter, m)).state.2 := by
  induction steps with
  | nil => intro rw m; exact ⟨rfl, rfl, rfl⟩
  | cons st rest ih =>
    intro rw m
    cases st with
    | panic => exact ⟨rfl, rfl, rfl⟩
    | collect update =>
      simp only [Step.run, Step.perform, Outcome.andThen]
      exact ih rw (update m)
    | call c =>
      cases c with
      | Header update =>
        simp only [Step.run, Step.perform, http.Call.perform, Outcome.andThen,
          http.ResponseWriter.withHeader, http.ResponseWriter.Header]
        exact ih _ m
      | WriteHeader code =>
        simp only [Step.run, Step.perform, http.Call.perform,
          http.ResponseWriter.WriteHeader, responseWriter.WriteHeader]
        cases http.ResponseWriter.WriteHeader rw.ResponseWriter code with
        | returned w1 =>
          simp only [Outcome.andThen]
          exact ih _ m
        | panicked w1 => exact ⟨rfl, rfl, rfl⟩
      | Write p =>
        simp only [Step.run, Step.perform, http.Call.perform,
          http.ResponseWriter.Write, responseWriter.Write]
        cases http.ResponseWriter.Write rw.ResponseWriter p with
        | returned w1 =>
          simp only [Outcome.andThen]
          exact ih _ m
        | panicked w1 => exact ⟨rfl, rfl, rfl⟩

/-- After a run on the wrapper that did not panic, the captured code is the code of the
last `WriteHeader` call, or the code captured before when there is no such call. -/
theorem Step_run_statusCode {W : Type} [http.ResponseWriter W] (steps : List Step) :
    ∀ (rw : responseWriter W) (m : Metrics), (Step.run steps (rw, m)).panics = false →
      (Step.run steps (rw, m)).state.1.statusCode =
        (lastWriteHeader (callsOf steps)).getD rw.statusCode := by
  induction steps with
  | nil => intro rw m _; rfl
  | cons st rest ih =>
    intro rw m h
    cases st with
    | panic => exact absurd h (by simp [Step.run, Step.perform, Outcome.andThen, Outcome.panics])
    | collect update =>
      simp only [Step.run, Step.perform, Outcome.andThen, callsOf] at h ⊢
      exact ih rw (update m) h
    | call c =>
      cases c with
      | Header update =>
        simp only [Step.run, Step.perform, http.Call.perform, Outcome.andThen,
          http.ResponseWriter.withHeader, http.ResponseWriter.Header, callsOf,
          lastWriteHeader] at h ⊢
        exact ih _ m h
      | WriteHeader code =>
        simp only [Step.run, Step.perform, http.Call.perform,
          http.ResponseWriter.WriteHeader, responseWriter.WriteHeader, callsOf,
          lastWriteHeader, Option.getD_some] at h ⊢
        cases hw : http.ResponseWriter.WriteHeader rw.ResponseWriter code with
        | returned w1 =>
          simp only [hw, Outcome.andThen] at h ⊢
          exact ih _ m h
        | panicked w1 =>
          simp only [hw, Outcome.andThen, Outcome.panics] at h
          exact absurd h (by simp)
      | Write p =>
        simp only [Step.run, Step.perform, http.Call.perform,
          http.ResponseWriter.Write, responseWriter.Write, callsOf, lastWriteHeader] at h ⊢
        cases hw : http.ResponseWriter.Write rw.ResponseWriter p with
        | returned w1 =>
          simp only [hw, Outcome.andThen] at h ⊢
          exact ih _ m h
        | panicked w1 =>
          simp only [hw, Outcome.andThen, Outcome.panics] at h
          exact absurd h (by simp)

/-- The fields of a run of the middleware in terms of the run of the downstream steps on
the wrapper. -/
theorem MetricsMiddleware_run {σ W : Type} [http.ResponseWriter W] (e : String)
    (next : HandlerFunc σ) (w : W) (r : http.Request) (t0 t1 : Int) (s : σ) (m : Metrics) :
    (MetricsMiddleware e next w r t0 t1 s m).entered =
      { m with httpActiveRequests := m.httpActiveRequests + 1 } ∧
    (MetricsMiddleware e next w r t0 t1 s m).panicked =
      (Step.run (next r { m with httpActiveRequests := m.httpActiveRequests + 1 } s).1
        (({ ResponseWriter := w, statusCode := http.StatusOK } : responseWriter W),
          { m with httpActiveRequests := m.httpActiveRequests + 1 })).panics ∧
    (MetricsMiddleware e next w r t0 t1 s m).wrapped =
      (Step.run (next r { m with httpActiveRequests := m.httpActiveRequests + 1 } s).1
        (({ ResponseWriter := w, statusCode := http.StatusOK } : responseWriter W),
          { m with httpActiveRequests := m.httpActiveRequests + 1 })).state.1 ∧
    (MetricsMiddleware e next w r t0 t1 s m).handled =
      (Step.run (next r { m with httpActiveRequests := m.httpActiveRequests + 1 } s).1
        (({ ResponseWriter := w, statusCode := http.StatusOK } : responseWriter W),
          { m with httpActiveRequests := m.httpActiveRequests + 1 })).state.2 ∧
    (MetricsMiddleware e next w r t0 t1 s m).state =
      (next r { m with httpActiveRequests := m.httpActiveRequests + 1 } s).2 := by
  simp only [MetricsMiddleware, HandlerFunc.ServeHTTP]
  cases Step.run (next r { m with httpActiveRequests := m.httpActiveRequests + 1 } s).1
      (({ ResponseWriter := w, statusCode := http.StatusOK } : responseWriter W),
        { m with httpActiveRequests := m.httpActiveRequests + 1 }) with
  | returned out => exact ⟨rfl, rfl, rfl, rfl, rfl⟩
  | panicked out => exact ⟨rfl, rfl, rfl, rfl, rfl⟩

/-- What the middleware does to the collectors after the downstream call: nothing when
the call panicked; otherwise the gauge goes down by one, one counter child goes up by
one and one histogram child takes one observation. -/
theorem MetricsMiddleware_after {σ W : Type} [http.ResponseWriter W] (e : String)
    (next : HandlerFunc σ) (w : W) (r : http.Request) (t0 t1 : Int) (s : σ) (m : Metrics) :
    ((MetricsMiddleware e next w r t0 t1 s m).panicked = true →
      (MetricsMiddleware e next w r t0 t1 s m).left =
        (MetricsMiddleware e next w r t0 t1 s m).handled ∧
      (MetricsMiddleware e next w r t0 t1 s m).counted =
        (MetricsMiddleware e next w r t0 t1 s m).handled ∧
      (MetricsMiddleware e next w r t0 t1 s m).observed =
        (MetricsMiddleware e next w r t0 t1 s m).handled) ∧
    ((MetricsMiddleware e next w r t0 t1 s m).panicked = false →
      (MetricsMiddleware e next w r t0 t1 s m).left =
        { (MetricsMiddleware e next w r t0 t1 s m).handled with
          httpActiveRequests :=
            (MetricsMiddleware e next w r t0 t1 s m).handled.httpActiveRequests - 1 } ∧
      (MetricsMiddleware e next w r t0 t1 s m).counted =
        { (MetricsMiddleware e next w r t0 t1 s m).left with
          httpRequestsTotal :=
            (MetricsMiddleware e next w r t0 t1 s m).left.httpRequestsTotal.Inc
              [r.Method, e,
                http.StatusText (MetricsMiddleware e next w r t0 t1 s m).wrapped.statusCode] } ∧
      (MetricsMiddleware e next w r t0 t1 s m).observed =
        { (MetricsMiddleware e next w r t0 t1 s m).counted with
          httpRequestDuration :=
            (MetricsMiddleware e next w r t0 t1 s m).counted.httpRequestDuration.Observe
              [r.Method, e] (time.Since t0 t1) }) := by
  simp only [MetricsMiddleware, HandlerFunc.ServeHTTP]
  cases Step.run (next r { m with httpActiveRequests := m.httpActiveRequests + 1 } s).1
      (({ ResponseWriter := w, statusCode := http.StatusOK } : responseWriter W),
        { m with httpActiveRequests := m.httpActiveRequests + 1 }) with
  | returned out =>
    refine ⟨fun h => absurd h (by simp), fun _ => ⟨rfl, rfl, rfl⟩⟩
  | panicked out =>
    refine ⟨fun _ => ⟨rfl, rfl, rfl⟩, fun h => absurd h (by simp)⟩

theorem Series_get_update {α : Type} (zero : α) (f : α → α) (lvs : List String)
    (sr : prometheus.Series α) (k : List String) :
    prometheus.Series.get zero k (prometheus.Series.update zero f lvs sr) =
      if k = lvs then f (prometheus.Series.get zero lvs sr)
      else prometheus.Series.get zero k sr := by
  induction sr with
  | nil =>
    by_cases h : k = lvs
    · subst h; simp [prometheus.Series.update, prometheus.Series.get]
    · have h1 : ¬ lvs = k := fun x => h x.symm
      simp [prometheus.Series.update, prometheus.Series.get, h, h1]
  | cons p rest ih =>
    obtain ⟨k1, v1⟩ := p
    by_cases h1 : k1 = lvs
    · subst h1
      by_cases h : k = k1
      · subst h; simp [prometheus.Series.update, prometheus.Series.get]
      · have h2 : ¬ k1 = k := fun x => h x.symm
        simp [prometheus.Series.update, prometheus.Series.get, h, h2]
    · by_cases h : k = lvs
      · subst h
        simp [prometheus.Series.update, prometheus.Series.get, h1, ih]
      · by_cases h3 : k1 = k
        · subst h3; simp [prometheus.Series.update, prometheus.Series.get, h1]
        · simp [prometheus.Series.update, prometheus.Series.get, h1, h3, ih, h]

theorem ResponseRecorder_run_after (steps : List Step) :
    ∀ (rw : httptest.ResponseRecorder) (m : Metrics), rw.wroteHeader = true →
      (Step.run steps (rw, m)).state.1.Code = rw.Code := by
  induction steps with
  | nil => intro rw m _; rfl
  | cons st rest ih =>
    intro rw m hw
    cases st with
    | panic => rfl
    | collect update =>
      simp only [Step.run, Step.perform, Outcome.andThen]
      exact ih rw (update m) hw
    | call c =>
      cases c with
      | Header update =>
        simp only [Step.run, Step.perform, http.Call.perform, Outcome.andThen,
          http.ResponseWriter.withHeader, http.ResponseWriter.Header]
        exact ih _ m hw
      | WriteHeader code =>
        simp only [Step.run, Step.perform, http.Call.perform,
          http.ResponseWriter.WriteHeader, httptest.ResponseRecorder.WriteHeader, hw, if_true,
          Outcome.andThen]
        exact ih rw m hw
      | Write p =>
        simp only [Step.run, Step.perform, http.Call.perform,
          http.ResponseWriter.Write, httptest.ResponseRecorder.Write,
          httptest.ResponseRecorder.WriteHeader, hw, if_true, Outcome.andThen]
        exact ih _ m rfl

/-- On a recorder whose header is not written yet, a run that does not panic leaves the
status a `net/http` writer sends for the calls made: the code of the first `WriteHeader`
call, or 200. -/
theorem ResponseRecorder_run_Code (steps : List Step) :
    ∀ (rw : httptest.ResponseRecorder) (m : Metrics), rw.wroteHeader = false →
      rw.Code = 200 → (Step.run steps (rw, m)).panics = false →
      (Step.run steps (rw, m)).state.1.Code = (sentStatus (callsOf steps)).getD 200 := by
  induction steps with
  | nil => intro rw m _ hc _; exact hc
  | cons st rest ih =>
    intro rw m hw hc h
    cases st with
    | panic => exact absurd h (by simp [Step.run, Step.perform, Outcome.andThen, Outcome.panics])
    | collect update =>
      simp only [Step.run, Step.perform, Outcome.andThen, callsOf] at h ⊢
      exact ih rw (update m) hw hc h
    | call c =>
      cases c with
      | Header update =>
        simp only [Step.run, Step.perform, http.Call.perform, Outcome.andThen,
          http.ResponseWriter.withHeader, http.ResponseWriter.Header, callsOf,
          sentStatus] at h ⊢
        exact ih _ m hw hc h
      | WriteHeader code =>
        by_cases hcode : code < 100 ∨ code > 999
        · simp [Step.run, Step.perform, http.Call.perform, http.ResponseWriter.WriteHeader,
            httptest.ResponseRecorder.WriteHeader, hw, hcode, Outcome.andThen,
            Outcome.panics] at h
        · simp only [Step.run, Step.perform, http.Call.perform,
            http.ResponseWriter.WriteHeader, httptest.ResponseRecorder.WriteHeader, hw, hcode,
            if_false, Bool.false_eq_true, Outcome.andThen, callsOf, sentStatus,
            Option.getD_some]
          exact ResponseRecorder_run_after rest _ m rfl
      | Write p =>
        have h200 : ¬ ((200 : Int) < 100 ∨ (200 : Int) > 999) := by decide
        simp only [Step.run, Step.perform, http.Call.perform,
          http.ResponseWriter.Write, httptest.ResponseRecorder.Write,
          httptest.ResponseRecorder.WriteHeader, hw, h200, if_false, Bool.false_eq_true,
          Outcome.andThen, callsOf, sentStatus, Option.getD_some]
        exact ResponseRecorder_run_after rest _ m rfl

theorem lastWriteHeader_none {calls : List http.Call} (h : noWriteHeader calls = true) :
    lastWriteHeader calls = none := by
  induction calls with
  | nil => rfl
  | cons c cs ih =>
    cases c with
    | Header update => exact ih h
    | WriteHeader code => exact absurd h (by simp [noWriteHeader])
    | Write p => exact ih h

theorem captured_eq_sent {calls : List http.Call} (h : headerFirst calls = true) :
    (lastWriteHeader calls).getD 200 = (sentStatus calls).getD 200 := by
  induction calls with
  | nil => rfl
  | cons c cs ih =>
    cases c with
    | Header update => exact ih h
    | WriteHeader code =>
      have hn : lastWriteHeader cs = none := lastWriteHeader_none h
      simp [lastWriteHeader, sentStatus, hn]
    | Write p =>
      have hn : lastWriteHeader cs = none := lastWriteHeader_none h
      simp [lastWriteHeader, sentStatus, hn]

/-- The code the wrapper holds after a run of the middleware in which the downstream
call returned. -/
theorem MetricsMiddleware_captured {σ W : Type} [http.ResponseWriter W] (e : String)
    (next : HandlerFunc σ) (w : W) (r : http.Request) (t0 t1 : Int) (s : σ) (m : Metrics)
    (h : (MetricsMiddleware e next w r t0 t1 s m).panicked = false) :
    (MetricsMiddleware e next w r t0 t1 s m).wrapped.statusCode =
      (lastWriteHeader (callsOf
        (next r (MetricsMiddleware e next w r t0 t1 s m).entered s).1)).getD 200 := by
  obtain ⟨h1, h2, h3, _, _⟩ := MetricsMiddleware_run e next w r t0 t1 s m
  rw [h2] at h
  rw [h3, h1]
  exact Step_run_statusCode _ _ _ h

theorem Step_run_leavesCollectors {W : Type} [http.ResponseWriter W] (steps : List Step) :
    ∀ (w : W) (m : Metrics), leavesCollectors steps = true →
      (Step.run steps (w, m)).state.2 = m := by
  induction steps with
  | nil => intro w m _; rfl
  | cons st rest ih =>
    intro w m h
    cases st with
    | panic => rfl
    | collect update => exact absurd h (by simp [leavesCollectors])
    | call c =>
      simp only [leavesCollectors] at h
      simp only [Step.run, Step.perform]
      cases http.Call.perform w c with
      | returned w1 =>
        simp only [Outcome.andThen]
        exact ih w1 m h
      | panicked w1 => rfl

/-- On a recorder, a run that does not panic appends to the body exactly the bytes of the
`Write` calls made, in order. -/
theorem ResponseRecorder_run_Body (steps : List Step) :
    ∀ (rw : httptest.ResponseRecorder) (m : Metrics), (Step.run steps (rw, m)).panics = false →
      (Step.run steps (rw, m)).state.1.Body = rw.Body ++ writtenBody (callsOf steps) := by
  induction steps with
  | nil => intro rw m _; simp [Step.run, Outcome.state, callsOf, writtenBody]
  | cons st rest ih =>
    intro rw m h
    cases st with
    | panic => exact absurd h (by simp [Step.run, Step.perform, Outcome.andThen, Outcome.panics])
    | collect update =>
      simp only [Step.run, Step.perform, Outcome.andThen, callsOf] at h ⊢
      exact ih rw (update m) h
    | call c =>
      cases c with
      | Header update =>
        simp only [Step.run, Step.perform, http.Call.perform, Outcome.andThen,
          http.ResponseWriter.withHeader, http.ResponseWriter.Header, callsOf,
          writtenBody] at h ⊢
        exact ih _ m h
      | WriteHeader code =>
        by_cases hw : rw.wroteHeader = true
        · simp only [Step.run, Step.perform, http.Call.perform,
            http.ResponseWriter.WriteHeader, httptest.ResponseRecorder.WriteHeader, hw,
            if_true, Outcome.andThen, callsOf, writtenBody] at h ⊢
          exact ih rw m h
        · by_cases hcode : code < 100 ∨ code > 999
          · simp [Step.run, Step.perform, http.Call.perform, http.ResponseWriter.WriteHeader,
              httptest.ResponseRecorder.WriteHeader, hw, hcode, Outcome.andThen,
              Outcome.panics] at h
          · simp only [Step.run, Step.perform, http.Call.perform,
              http.ResponseWriter.WriteHeader, httptest.ResponseRecorder.WriteHeader, hw, hcode,
              if_false, Outcome.andThen, callsOf, writtenBody] at h ⊢
            exact ih _ m h
      | Write p =>
        have h200 : ¬ ((200 : Int) < 100 ∨ (200 : Int) > 999) := by decide
        by_cases hw : rw.wroteHeader = true
        · simp only [Step.run, Step.perform, http.Call.perform,
            http.ResponseWriter.Write, httptest.ResponseRecorder.Write,
            httptest.ResponseRecorder.WriteHeader, hw, if_true, Outcome.andThen, callsOf,
            writtenBody] at h ⊢
          exact (ih _ m h).trans (List.append_assoc _ _ _)
        · simp only [Step.run, Step.perform, http.Call.perform,
            http.ResponseWriter.Write, httptest.ResponseRecorder.Write,
            httptest.ResponseRecorder.WriteHeader, hw, h200, if_false, Outcome.andThen, callsOf,
            writtenBody] at h ⊢
          exact (ih _ m h).trans (List.append_assoc _ _ _)

/-- C7, at a handler that panics: `zeroCodeHandler` calls `w.WriteHeader(0)`, which
panics in the writer, and `panicHandler` panics by itself. The panic leaves
`MetricsMiddleware` before lines 69-72 run, so the request is in no child of
`http_requests_total` and in no child of `http_request_duration_seconds`: after one GET
from fresh collectors both sums for the endpoint are 0, not 1, and after five GETs they
are 0, not 5, while five GETs to a handler that responds 200 give 5. -/
theorem MetricsMiddleware_panic_not_counted :
    (MetricsMiddleware "/workshop" zeroCodeHandler oneGet.w oneGet.r oneGet.t0 oneGet.t1 ()
      Metrics.fresh).panicked = true ∧
    requestsTotal "/workshop"
      (serveAll "/workshop" zeroCodeHandler [oneGet] () Metrics.fresh).2.httpRequestsTotal = 0 ∧
    observationCount "/workshop"
      (serveAll "/workshop" zeroCodeHandler [oneGet] () Metrics.fresh).2.httpRequestDuration
        = 0 ∧
    (MetricsMiddleware "/workshop" panicHandler oneGet.w oneGet.r oneGet.t0 oneGet.t1 ()
      Metrics.fresh).panicked = true ∧
    requestsTotal "/workshop"
      (serveAll "/workshop" panicHandler [oneGet] () Metrics.fresh).2.httpRequestsTotal = 0 ∧
    observationCount "/workshop"
      (serveAll "/workshop" panicHandler [oneGet] () Metrics.fresh).2.httpRequestDuration = 0 ∧
    requestsTotal "/workshop"
      (serveAll "/workshop" zeroCodeHandler fiveGets () Metrics.fresh).2.httpRequestsTotal = 0 ∧
    observationCount "/workshop"
      (serveAll "/workshop" zeroCodeHandler fiveGets () Metrics.fresh).2.httpRequestDuration
        = 0 ∧
    requestsTotal "/workshop"
      (serveAll "/workshop" okHandler fiveGets () Metrics.fresh).2.httpRequestsTotal = 5 ∧
    observationCount "/workshop"
      (serveAll "/workshop" okHandler fiveGets () Metrics.fresh).2.httpRequestDuration = 5 := by
  refine ⟨by decide, by decide, by decide, by decide, by decide, by decide, by decide,
    by decide, by decide, by decide⟩

/-- C8, at a handler that panics: while `zeroCodeHandler` runs the gauge
`http_active_requests` is 1; its call `w.WriteHeader(0)` panics, the panic leaves
`MetricsMiddleware` before line 69 runs, and the gauge is still 1 when the request is
over, with no request active. Five such requests from fresh collectors leave it at 5,
not 0; the same holds for a handler that panics by itself, while five GETs to a
handler that responds 200 leave it at 0. -/
theorem httpActiveRequests_stuck_after_panic :
    (MetricsMiddleware "/workshop" zeroCodeHandler oneGet.w oneGet.r oneGet.t0 oneGet.t1 ()
      Metrics.fresh).entered.httpActiveRequests = 1 ∧
    (MetricsMiddleware "/workshop" zeroCodeHandler oneGet.w oneGet.r oneGet.t0 oneGet.t1 ()
      Metrics.fresh).panicked = true ∧
    (MetricsMiddleware "/workshop" zeroCodeHandler oneGet.w oneGet.r oneGet.t0 oneGet.t1 ()
      Metrics.fresh).observed.httpActiveRequests = 1 ∧
    (serveAll "/workshop" zeroCodeHandler [oneGet] () Metrics.fresh).2.httpActiveRequests = 1 ∧
    (serveAll "/workshop" zeroCodeHandler fiveGets () Metrics.fresh).2.httpActiveRequests = 5 ∧
    (serveAll "/workshop" panicHandler [oneGet] () Metrics.fresh).2.httpActiveRequests = 1 ∧
    (serveAll "/workshop" okHandler fiveGets () Metrics.fresh).2.httpActiveRequests = 0 := by
  refine ⟨by decide, by decide, by decide, by decide, by decide, by decide, by decide⟩

/-- C9: in a run of `MetricsMiddleware(e, next)` whose downstream call returns, the
`http_requests_total` child the middleware increments carries the labels (method of the
request, `e`, status text of the captured code), and no other child changes; the
captured code is the code of the last `WriteHeader` call of the downstream handler and
200 when it makes none, so the label is `OK` for a handler that never calls
`WriteHeader`, also when it only writes a body, and `Bad Request` for a handler that
responds 400. When the downstream handler changes no collector the increment is on top
of the counter as the request found it. When the downstream call panics the middleware
increments no child. -/
theorem MetricsMiddleware_status_label {σ W : Type} [http.ResponseWriter W] (e : String)
    (next : HandlerFunc σ) (w : W) (r : http.Request) (t0 t1 : Int) (s : σ) (m : Metrics) :
    ((MetricsMiddleware e next w r t0 t1 s m).panicked = false →
      (MetricsMiddleware e next w r t0 t1 s m).wrapped.statusCode =
        (lastWriteHeader (callsOf
          (next r (MetricsMiddleware e next w r t0 t1 s m).entered s).1)).getD 200 ∧
      (noWriteHeader (callsOf
          (next r (MetricsMiddleware e next w r t0 t1 s m).entered s).1) = true →
        (MetricsMiddleware e next w r t0 t1 s m).wrapped.statusCode = 200 ∧
        http.StatusText (MetricsMiddleware e next w r t0 t1 s m).wrapped.statusCode = "OK") ∧
      (MetricsMiddleware e next w r t0 t1 s m).observed.httpRequestsTotal =
        prometheus.CounterVec.Inc (MetricsMiddleware e next w r t0 t1 s m).handled.httpRequestsTotal
          [r.Method, e,
            http.StatusText (MetricsMiddleware e next w r t0 t1 s m).wrapped.statusCode] ∧
      (∀ lvs : List String,
        prometheus.Series.get 0 lvs
            (MetricsMiddleware e next w r t0 t1 s m).observed.httpRequestsTotal =
          prometheus.Series.get 0 lvs
              (MetricsMiddleware e next w r t0 t1 s m).handled.httpRequestsTotal +
            (if lvs = [r.Method, e,
              http.StatusText (MetricsMiddleware e next w r t0 t1 s m).wrapped.statusCode]
             then 1 else 0))) ∧
    (leavesCollectors (next r (MetricsMiddleware e next w r t0 t1 s m).entered s).1 = true →
      (MetricsMiddleware e next w r t0 t1 s m).handled.httpRequestsTotal =
        m.httpRequestsTotal) ∧
    ((MetricsMiddleware e next w r t0 t1 s m).panicked = true →
      (MetricsMiddleware e next w r t0 t1 s m).observed.httpRequestsTotal =
        (MetricsMiddleware e next w r t0 t1 s m).handled.httpRequestsTotal) ∧
    ((MetricsMiddleware e bodyOnlyHandler httptest.NewRecorder r t0 t1 () m).panicked = false ∧
      (MetricsMiddleware e bodyOnlyHandler httptest.NewRecorder r t0 t1 ()
        m).observed.httpRequestsTotal =
          prometheus.CounterVec.Inc m.httpRequestsTotal [r.Method, e, "OK"]) ∧
    ((MetricsMiddleware e badRequestHandler httptest.NewRecorder r t0 t1 () m).panicked = false ∧
      (MetricsMiddleware e badRequestHandler httptest.NewRecorder r t0 t1 ()
        m).observed.httpRequestsTotal =
          prometheus.CounterVec.Inc m.httpRequestsTotal [r.Method, e, "Bad Request"]) := by
  refine ⟨?_, ?_, ?_, ⟨rfl, rfl⟩, ⟨rfl, rfl⟩⟩
  · intro hp
    have hc := MetricsMiddleware_captured e next w r t0 t1 s m hp
    obtain ⟨h1, h2, h3⟩ := (MetricsMiddleware_after e next w r t0 t1 s m).2 hp
    have hinc : (MetricsMiddleware e next w r t0 t1 s m).observed.httpRequestsTotal =
        prometheus.CounterVec.Inc
          (MetricsMiddleware e next w r t0 t1 s m).handled.httpRequestsTotal
          [r.Method, e,
            http.StatusText (MetricsMiddleware e next w r t0 t1 s m).wrapped.statusCode] := by
      rw [h3, h2, h1]
    refine ⟨hc, ?_, hinc, ?_⟩
    · intro hn
      rw [hc, lastWriteHeader_none hn]
      exact ⟨rfl, rfl⟩
    · intro lvs
      rw [hinc]
      unfold prometheus.CounterVec.Inc
      rw [Series_get_update]
      by_cases hl : lvs = [r.Method, e,
          http.StatusText (MetricsMiddleware e next w r t0 t1 s m).wrapped.statusCode]
      · rw [if_pos hl, if_pos hl, hl]
      · rw [if_neg hl, if_neg hl]
        rfl
  · intro hl
    obtain ⟨h1, _, _, h4, _⟩ := MetricsMiddleware_run e next w r t0 t1 s m
    rw [h1] at hl
    rw [h4, Step_run_leavesCollectors _ _ _ hl]
  · intro hp
    rw [((MetricsMiddleware_after e next w r t0 t1 s m).1 hp).2.2]

/-- Witness of C9: a handler that only writes a body is counted under `OK`. -/
theorem MetricsMiddleware_status_label_witness :
    (MetricsMiddleware "/workshop" bodyOnlyHandler httptest.NewRecorder
      { Method := "GET", Body := [] } 0 1 () Metrics.fresh).panicked = false ∧
    noWriteHeader (callsOf (bodyOnlyHandler { Method := "GET", Body := [] }
      (MetricsMiddleware "/workshop" bodyOnlyHandler httptest.NewRecorder
        { Method := "GET", Body := [] } 0 1 () Metrics.fresh).entered ()).1) = true ∧
    http.StatusText (MetricsMiddleware "/workshop" bodyOnlyHandler httptest.NewRecorder
      { Method := "GET", Body := [] } 0 1 () Metrics.fresh).wrapped.statusCode = "OK" ∧
    (MetricsMiddleware "/workshop" bodyOnlyHandler httptest.NewRecorder
      { Method := "GET", Body := [] } 0 1 () Metrics.fresh).observed.httpRequestsTotal =
        [(["GET", "/workshop", "OK"], 1)] :=
  ⟨rfl, rfl,
   ((((MetricsMiddleware_status_label "/workshop" bodyOnlyHandler httptest.NewRecorder
    { Method := "GET", Body := [] } 0 1 () Metrics.fresh).1 rfl).2.1) rfl).2,
   by decide⟩

/-- C10, at the handler `lateErrorHandler`, which returns without a panic: the recorder
under the wrapper has sent status 200, the status of a first `Write`, while the wrapper
has captured 500, and the request is counted under `Internal Server Error`, not under
`OK`; what reached the recorder is what the handler wrote. -/
theorem responseWriter_captures_unsent_code :
    (MetricsMiddleware "/workshop" lateErrorHandler httptest.NewRecorder
      { Method := "GET", Body := [] } 0 1 () Metrics.fresh).panicked = false ∧
    sentStatus (callsOf (lateErrorHandler { Method := "GET", Body := [] } Metrics.fresh ()).1) =
      some 200 ∧
    (MetricsMiddleware "/workshop" lateErrorHandler httptest.NewRecorder
      { Method := "GET", Body := [] } 0 1 () Metrics.fresh).wrapped.ResponseWriter.Code = 200 ∧
    (MetricsMiddleware "/workshop" lateErrorHandler httptest.NewRecorder
      { Method := "GET", Body := [] } 0 1 () Metrics.fresh).wrapped.statusCode = 500 ∧
    prometheus.Series.get 0 ["GET", "/workshop", "Internal Server Error"]
      (MetricsMiddleware "/workshop" lateErrorHandler httptest.NewRecorder
        { Method := "GET", Body := [] } 0 1 () Metrics.fresh).observed.httpRequestsTotal = 1 ∧
    prometheus.Series.get 0 ["GET", "/workshop", "OK"]
      (MetricsMiddleware "/workshop" lateErrorHandler httptest.NewRecorder
        { Method := "GET", Body := [] } 0 1 () Metrics.fresh).observed.httpRequestsTotal = 0 ∧
    (MetricsMiddleware "/workshop" lateErrorHandler httptest.NewRecorder
      { Method := "GET", Body := [] } 0 1 () Metrics.fresh).wrapped.ResponseWriter.Body =
        bytes "partial" := by
  refine ⟨by decide, rfl, by decide, by decide, by decide, by decide, by decide⟩

/-- C10, amended: whatever the downstream handler does, on any writer, the run on the
wrapper ends the way the same steps end when taken on the underlying writer directly,
by return or by panic, and leaves the underlying writer in the same state, so header
changes and body bytes reach it unchanged; and when the downstream call returns and the
handler calls `WriteHeader` at most once and not after a `Write`, the status code the
wrapper has captured is the status a `net/http` writer sends for these calls, which is
the status code the recorder under the wrapper has sent; the body of that recorder is,
after any downstream call that returns, the bytes of the `Write` calls in order. -/
theorem responseWriter_faithful {σ : Type} (e : String) (next : HandlerFunc σ)
    (r : http.Request) (t0 t1 : Int) (s : σ) (m : Metrics) :
    (∀ (W : Type) [http.ResponseWriter W] (w : W),
      (MetricsMiddleware e next w r t0 t1 s m).panicked =
        (Step.run (next r (MetricsMiddleware e next w r t0 t1 s m).entered s).1
          (w, (MetricsMiddleware e next w r t0 t1 s m).entered)).panics ∧
      (MetricsMiddleware e next w r t0 t1 s m).wrapped.ResponseWriter =
        (Step.run (next r (MetricsMiddleware e next w r t0 t1 s m).entered s).1
          (w, (MetricsMiddleware e next w r t0 t1 s m).entered)).state.1 ∧
      (MetricsMiddleware e next w r t0 t1 s m).handled =
        (Step.run (next r (MetricsMiddleware e next w r t0 t1 s m).entered s).1
          (w, (MetricsMiddleware e next w r t0 t1 s m).entered)).state.2) ∧
    (∀ (W : Type) [http.ResponseWriter W] (w : W),
      (MetricsMiddleware e next w r t0 t1 s m).panicked = false →
      headerFirst (callsOf
        (next r (MetricsMiddleware e next w r t0 t1 s m).entered s).1) = true →
      (MetricsMiddleware e next w r t0 t1 s m).wrapped.statusCode =
        (sentStatus (callsOf
          (next r (MetricsMiddleware e next w r t0 t1 s m).entered s).1)).getD 200) ∧
    ((MetricsMiddleware e next httptest.NewRecorder r t0 t1 s m).panicked = false →
      headerFirst (callsOf
        (next r (MetricsMiddleware e next httptest.NewRecorder r t0 t1 s m).entered s).1)
          = true →
      (MetricsMiddleware e next httptest.NewRecorder r t0 t1 s m).wrapped.statusCode =
        (MetricsMiddleware e next httptest.NewRecorder r t0 t1 s m).wrapped.ResponseWriter.Code) ∧
    ((MetricsMiddleware e next httptest.NewRecorder r t0 t1 s m).panicked = false →
      (MetricsMiddleware e next httptest.NewRecorder r t0 t1 s m).wrapped.ResponseWriter.Body =
        writtenBody (callsOf
          (next r (MetricsMiddleware e next httptest.NewRecorder r t0 t1 s m).entered s).1))
    := by
  have pass : ∀ (W : Type) [http.ResponseWriter W] (w : W),
      (MetricsMiddleware e next w r t0 t1 s m).panicked =
        (Step.run (next r (MetricsMiddleware e next w r t0 t1 s m).entered s).1
          (w, (MetricsMiddleware e next w r t0 t1 s m).entered)).panics ∧
      (MetricsMiddleware e next w r t0 t1 s m).wrapped.ResponseWriter =
        (Step.run (next r (MetricsMiddleware e next w r t0 t1 s m).entered s).1
          (w, (MetricsMiddleware e next w r t0 t1 s m).entered)).state.1 ∧
      (MetricsMiddleware e next w r t0 t1 s m).handled =
        (Step.run (next r (MetricsMiddleware e next w r t0 t1 s m).entered s).1
          (w, (MetricsMiddleware e next w r t0 t1 s m).entered)).state.2 := by
    intro W _ w
    obtain ⟨h1, h2, h3, h4, _⟩ := MetricsMiddleware_run e next w r t0 t1 s m
    obtain ⟨q1, q2, q3⟩ := Step_run_responseWriter
      (next r { m with httpActiveRequests := m.httpActiveRequests + 1 } s).1
      ({ ResponseWriter := w, statusCode := http.StatusOK } : responseWriter W)
      { m with httpActiveRequests := m.httpActiveRequests + 1 }
    rw [h2, h3, h4, h1]
    exact ⟨q1, q2, q3⟩
  have cap : ∀ (W : Type) [http.ResponseWriter W] (w : W),
      (MetricsMiddleware e next w r t0 t1 s m).panicked = false →
      headerFirst (callsOf
        (next r (MetricsMiddleware e next w r t0 t1 s m).entered s).1) = true →
      (MetricsMiddleware e next w r t0 t1 s m).wrapped.statusCode =
        (sentStatus (callsOf
          (next r (MetricsMiddleware e next w r t0 t1 s m).entered s).1)).getD 200 := by
    intro W _ w hp hf
    rw [MetricsMiddleware_captured e next w r t0 t1 s m hp, captured_eq_sent hf]
  refine ⟨pass, cap, ?_, ?_⟩
  · intro hp hf
    rw [cap _ httptest.NewRecorder hp hf]
    obtain ⟨p1, p2, _⟩ := pass _ httptest.NewRecorder
    rw [p1] at hp
    rw [p2]
    exact (ResponseRecorder_run_Code _ httptest.NewRecorder _ rfl rfl hp).symm
  · intro hp
    obtain ⟨p1, p2, _⟩ := pass _ httptest.NewRecorder
    rw [p1] at hp
    rw [p2, ResponseRecorder_run_Body _ httptest.NewRecorder _ hp]
    rfl

/-- Witness of the amended C10: a handler that responds 400 and then writes its body. -/
theorem responseWriter_faithful_witness :
    (MetricsMiddleware "/workshop" badRequestHandler httptest.NewRecorder
      { Method := "POST", Body := [] } 0 1 () Metrics.fresh).panicked = false ∧
    headerFirst (callsOf (badRequestHandler { Method := "POST", Body := [] }
      (MetricsMiddleware "/workshop" badRequestHandler httptest.NewRecorder
        { Method := "POST", Body := [] } 0 1 () Metrics.fresh).entered ()).1) = true ∧
    (MetricsMiddleware "/workshop" badRequestHandler httptest.NewRecorder
      { Method := "POST", Body := [] } 0 1 () Metrics.fresh).wrapped.statusCode = 400 ∧
    (MetricsMiddleware "/workshop" badRequestHandler httptest.NewRecorder
      { Method := "POST", Body := [] } 0 1 () Metrics.fresh).wrapped.statusCode =
      (MetricsMiddleware "/workshop" badRequestHandler httptest.NewRecorder
        { Method := "POST", Body := [] } 0 1 () Metrics.fresh).wrapped.ResponseWriter.Code :=
  ⟨rfl, rfl, rfl, (responseWriter_faithful "/workshop" badRequestHandler
    { Method := "POST", Body := [] } 0 1 () Metrics.fresh).2.2.1 rfl rfl⟩
